import Mathlib

set_option maxRecDepth 8000

/-!
Verification development for the VarraTek blog-publishing script
(generate_blog.py).  The string-processing core of the script is embedded
shallowly: Python strings are modelled as `List Char`, and the Python
string/regex operations used by the script are modelled by executable Lean
functions over `List Char`.  The models cover the ASCII fragment of
Python's character classes (`\s`, `\w`, `str.lower`, `str.strip`), which
is the fragment every metadata label, default string and separator of the
script lives in.  Fallible functions (those that call `sys.exit`) return
`Option`, with `none` standing for fatal termination.
-/

/-- Whitespace test for Python's `str.strip` / regex `\s`.  Python's
class is Unicode-aware; the embedding implements its ASCII fragment
(space, tab, newline, carriage return, vertical tab, form feed), which
contains every whitespace character the script itself writes.  The
theorems below use the class only through membership and through strip
being a no-op on stripped text, properties shared with the full class. -/
def pyIsSpace (c : Char) : Bool :=
  c = ' ' || c = '\t' || c = '\n' || c = '\r' || c = '\x0b' || c = '\x0c'

/-- Python's `str.lower`, ASCII fragment: map `A`-`Z` to `a`-`z` and
leave everything else unchanged.  The real `str.lower` is Unicode-aware;
the proofs use only that lowering is idempotent, which holds of the full
function as well, so no theorem below depends on the fragment's extent. -/
def pyToLower (c : Char) : Char :=
  if 65 ≤ c.toNat ∧ c.toNat ≤ 90 then Char.ofNat (c.toNat + 32) else c

/-- Word-character test for the regex class `\w` used by `slugify`.
The source compiles its patterns without `re.ASCII`, so Python's `\w`
also matches non-ASCII word characters; the embedding implements the
ASCII fragment (letters, digits, underscore).  The slug theorems below
conclude membership in this class — they do not bound its extent, so
they remain true readings of the program under the full Unicode class. -/
def pyIsWordChar (c : Char) : Bool :=
  c.isAlpha || c.isDigit || c = '_'

/-- Python's `str.strip()`: drop leading and trailing whitespace. -/
def pyStrip (l : List Char) : List Char :=
  (l.dropWhile pyIsSpace).rdropWhile pyIsSpace

/-- Python's `str.rstrip()`: drop trailing whitespace. -/
def pyRstrip (l : List Char) : List Char :=
  l.rdropWhile pyIsSpace

/-- Split a list at the first occurrence of the pattern `pat`:
`some (before, after)` when `pat` occurs, `none` otherwise.  This models
both Python's `in` test (`isSome`) and `str.partition` / `str.split(sep, 1)`
(the two surrounding parts). -/
def splitOnFirst (pat : List Char) : List Char → Option (List Char × List Char)
  | [] => none
  | c :: cs =>
    if pat.isPrefixOf (c :: cs) then some ([], (c :: cs).drop pat.length)
    else (splitOnFirst pat cs).map (fun p => (c :: p.1, p.2))

/-- Fuelled worker for Python's `str.replace`: replace every (leftmost,
non-overlapping) occurrence of `pat` by `rep`.  The fuel argument only
serves termination; `pyReplace` supplies enough fuel for the whole input,
and all patterns used by the script are non-empty. -/
def replaceFuel (pat rep : List Char) : Nat → List Char → List Char
  | _, [] => []
  | 0, s => s
  | f + 1, c :: cs =>
    if pat.isPrefixOf (c :: cs) then rep ++ replaceFuel pat rep f ((c :: cs).drop pat.length)
    else c :: replaceFuel pat rep f cs

/-- Python's `str.replace(pat, rep)` (for non-empty `pat`). -/
def pyReplace (pat rep : List Char) (s : List Char) : List Char :=
  replaceFuel pat rep s.length s

/-- Python's `str.split("\n")`: split at every newline, keeping empty parts. -/
def splitLines : List Char → List (List Char)
  | [] => [[]]
  | c :: cs =>
    if c = '\n' then [] :: splitLines cs
    else
      match splitLines cs with
      | [] => [[c]]
      | l :: ls => (c :: l) :: ls

/-! ## slugify -/

/-- Characters kept by `re.sub(r"[^\w\s-]", "", slug)`. -/
def slugKeep (c : Char) : Bool :=
  pyIsWordChar c || pyIsSpace c || c = '-'

/-- Characters matched by the run class `[-\s]`. -/
def dashSpace (c : Char) : Bool :=
  c = '-' || pyIsSpace c

/-- Worker for `re.sub(r"[-\s]+", "-", slug)`: each maximal run of dashes
and whitespace becomes a single dash.  The boolean records whether we are
inside such a run. -/
def collapseRuns : Bool → List Char → List Char
  | _, [] => []
  | inRun, c :: cs =>
    if dashSpace c then
      if inRun then collapseRuns true cs else '-' :: collapseRuns true cs
    else c :: collapseRuns false cs

/-- Python's `str.strip("-")`: drop leading and trailing dashes. -/
def stripDash (l : List Char) : List Char :=
  (l.dropWhile (fun c => c = '-')).rdropWhile (fun c => c = '-')

/-- The pipeline of `slugify` before the `or "post"` fallback:
lowercase and strip, delete characters outside `[\w\s-]`, collapse
dash/whitespace runs to single dashes, truncate to 80, strip dashes. -/
def slugCore (text : List Char) : List Char :=
  stripDash ((collapseRuns false ((pyStrip (text.map pyToLower)).filter slugKeep)).take 80)

/-- `slugify` from generate_blog.py: SEO-friendly filename from the title,
with the fixed fallback "post" when the pipeline comes out empty. -/
def slugify (text : List Char) : List Char :=
  if slugCore text = [] then ("post".toList) else slugCore text

/-! ## The article record and parse_generated_content -/

/-- The dict returned by both normalizers: keys title, meta_description,
keywords, content. -/
structure ArticleRecord where
  title : List Char
  meta_description : List Char
  keywords : List Char
  content : List Char
deriving DecidableEq, Repr

def titleLabel : List Char := "SEO_TITLE:".toList
def metaLabel : List Char := "META_DESCRIPTION:".toList
def kwLabel : List Char := "KEYWORDS:".toList

def defaultTitle : List Char := "Cybersecurity Article".toList
def defaultMeta : List Char := "Cybersecurity insights from VarraTek Security.".toList
def defaultKw : List Char := "cybersecurity, security, enterprise, compliance, risk".toList
def defaultContent : List Char := "<p>Content could not be generated.</p>".toList

/-- Normalization applied to the raw completion before parsing:
`raw.replace("\r\n", "\n").strip()`. -/
def normRaw (raw : List Char) : List Char :=
  pyStrip (pyReplace ("\r\n".toList) ("\n".toList) raw)

/-- One iteration of the metadata loop of `parse_generated_content`:
strip the line, and on a label prefix overwrite the corresponding field
with `line.replace(label, "").strip()` (truncated to the field's cap). -/
def stepMeta (acc : List Char × List Char × List Char) (line0 : List Char) :
    List Char × List Char × List Char :=
  if titleLabel.isPrefixOf (pyStrip line0) then
    ((pyStrip (pyReplace titleLabel [] (pyStrip line0))).take 60, acc.2.1, acc.2.2)
  else if metaLabel.isPrefixOf (pyStrip line0) then
    (acc.1, (pyStrip (pyReplace metaLabel [] (pyStrip line0))).take 160, acc.2.2)
  else if kwLabel.isPrefixOf (pyStrip line0) then
    (acc.1, acc.2.1, pyStrip (pyReplace kwLabel [] (pyStrip line0)))
  else acc

/-- The metadata loop of `parse_generated_content` over the lines of the
front matter, starting from three empty fields. -/
def extractMeta (lines : List (List Char)) : List Char × List Char × List Char :=
  lines.foldl stepMeta ([], [], [])

/-- `parse_generated_content` from generate_blog.py.  `none` models the
`sys.exit` on a missing `---` separator; the `in` test plus `partition`
of the source are modelled together by `splitOnFirst`. -/
def parse_generated_content (raw : List Char) : Option ArticleRecord :=
  match splitOnFirst ("---".toList) (normRaw raw) with
  | none => none
  | some fc =>
    some ⟨if (extractMeta (splitLines fc.1)).1 = [] then defaultTitle
            else (extractMeta (splitLines fc.1)).1,
          if (extractMeta (splitLines fc.1)).2.1 = [] then defaultMeta
            else (extractMeta (splitLines fc.1)).2.1,
          if (extractMeta (splitLines fc.1)).2.2 = [] then defaultKw
            else (extractMeta (splitLines fc.1)).2.2,
          if pyStrip fc.2 = [] then defaultContent else pyStrip fc.2⟩

/-! ## escape_html -/

/-- `escape_html` from generate_blog.py: the four chained `str.replace`
calls, `&` first. -/
def escape_html (s : List Char) : List Char :=
  pyReplace ("\"".toList) ("&quot;".toList)
    (pyReplace (">".toList) ("&gt;".toList)
      (pyReplace ("<".toList) ("&lt;".toList)
        (pyReplace ("&".toList) ("&amp;".toList) s)))

/-! ## Sitemap -/

/-- The document written by `ensure_sitemap_exists` when the sitemap file
is missing. -/
def initialSitemap : List Char :=
  ("<?xml version=\"1.0\" encoding=\"UTF-8\"?>\n<urlset xmlns=\"http://www.sitemaps.org/schemas/sitemap/0.9\">\n</urlset>\n").toList

/-- `ensure_sitemap_exists`: the sitemap file content after the call,
given the content before it (`none` = file missing). -/
def ensure_sitemap_exists : Option (List Char) → List Char
  | none => initialSitemap
  | some t => t

/-- The `<url>` entry string interpolated by `add_url_to_sitemap`. -/
def sitemapEntry (url_path lastmod : List Char) : List Char :=
  ("  <url>\n    <loc>".toList) ++ url_path ++ ("</loc>\n    <lastmod>".toList) ++ lastmod
    ++ ("</lastmod>\n  </url>\n".toList)

def urlsetClose : List Char := "</urlset>".toList

/-- `add_url_to_sitemap`: ensure the sitemap exists, then insert the entry
before the closing tag, or append it (with a fresh closing tag) after
`rstrip` when the closing tag is missing. -/
def add_url_to_sitemap (st : Option (List Char)) (url_path lastmod : List Char) : List Char :=
  let text := ensure_sitemap_exists st
  let entry := sitemapEntry url_path lastmod
  if (splitOnFirst urlsetClose text).isSome then
    pyReplace urlsetClose (entry ++ urlsetClose) text
  else
    pyRstrip text ++ ("\n".toList) ++ entry ++ ("</urlset>\n".toList)

/-! ## A small backtracking regex engine

`parse_md_draft` uses three `re` patterns.  They are built from literals,
single-character classes, and greedy stars of single-character classes, so
we embed a backtracking matcher for exactly that fragment: alternatives
are tried left to right, stars longest-first, as in Python's `re`.
Literal matching is case-insensitive, mirroring the `re.IGNORECASE` flag
of the title/description patterns (the other patterns contain no cased
characters, so this is harmless for them). -/

inductive RE where
  | lit : List Char → RE
  | cls : (Char → Bool) → RE
  | star : (Char → Bool) → RE
  | seq : RE → RE → RE
  | alt : RE → RE → RE

/-- Case-insensitive prefix test (ASCII case folding, as in `re.IGNORECASE`). -/
def ciStarts : List Char → List Char → Bool
  | [], _ => true
  | _ :: _, [] => false
  | c :: cs, d :: ds => (pyToLower c = pyToLower d) && ciStarts cs ds

/-- Greedy backtracking for a star: try consuming `n` characters first,
then ever shorter consumptions down to zero. -/
def tryGreedy (k : List Char → Option α) (s : List Char) : Nat → Option α
  | 0 => k s
  | n + 1 =>
    match k (s.drop (n + 1)) with
    | some r => some r
    | none => tryGreedy k s n

/-- Run a pattern at the head of `s` in continuation-passing style: `k`
receives the unconsumed remainder of each candidate match, and the first
candidate accepted by `k` (in Python's backtracking order) wins. -/
def reRun : RE → List Char → (List Char → Option α) → Option α
  | .lit l, s, k => if ciStarts l s then k (s.drop l.length) else none
  | .cls p, s, k =>
    match s with
    | [] => none
    | c :: cs => if p c then k cs else none
  | .star p, s, k => tryGreedy k s (s.takeWhile p).length
  | .seq a b, s, k => reRun a s (fun v => reRun b v k)
  | .alt a b, s, k =>
    match reRun a s k with
    | some r => some r
    | none => reRun b s k

/-- Leftmost search (`re.search` without anchors): try the pattern at
every position, left to right. -/
def searchAll (m : List Char → Option α) : List Char → Option α
  | [] => m []
  | c :: cs =>
    match m (c :: cs) with
    | some r => some r
    | none => searchAll m cs

/-- Positions strictly after a newline, left to right. -/
def searchLSAux (m : List Char → Option α) : List Char → Option α
  | [] => none
  | c :: cs =>
    if c = '\n' then
      match m cs with
      | some r => some r
      | none => searchLSAux m cs
    else searchLSAux m cs

/-- Leftmost search restricted to line starts (`re.search` of a
`^`-anchored pattern with `re.MULTILINE`). -/
def searchLineStarts (m : List Char → Option α) (s : List Char) : Option α :=
  match m s with
  | some r => some r
  | none => searchLSAux m s

/-- The final capture group `([^\n]+)` shared by all three patterns:
greedily capture at least one non-newline character.  The `$` that
follows it in the `h1` and keyword patterns is then automatic, since the
greedy capture stops exactly at a newline or at the end. -/
def capLine (r : List Char) : Option (List Char) :=
  if r.takeWhile (fun c => c ≠ '\n') = [] then none
  else some (r.takeWhile (fun c => c ≠ '\n'))

/-- Like `capLine` but also returns the remainder after the match, for
`re.findall`-style iteration. -/
def capLineRest (r : List Char) : Option (List Char × List Char) :=
  if r.takeWhile (fun c => c ≠ '\n') = [] then none
  else some (r.takeWhile (fun c => c ≠ '\n'),
    r.drop (r.takeWhile (fun c => c ≠ '\n')).length)

/-- Everything before the capture group in
`(?:\*\*SEO Title[^*]*\*\*|SEO Title[^\n]*:)\s*\n\s*([^\n]+)`
(title extraction of `parse_md_draft`, compiled with `re.IGNORECASE`).
The trailing `\s*` is kept as the rightmost node so that the greedy-star
lemmas below apply to the continuation directly. -/
def titlePrefRE : RE :=
  .seq
    (.seq
      (.alt
        (.seq (.lit ("**SEO Title".toList))
          (.seq (.star (fun c => c ≠ '*')) (.lit ("**".toList))))
        (.seq (.lit ("SEO Title".toList))
          (.seq (.star (fun c => c ≠ '\n')) (.lit (":".toList)))))
      (.seq (.star pyIsSpace) (.lit ("\n".toList))))
    (.star pyIsSpace)

/-- Same shape for the meta-description pattern
`(?:\*\*Meta Description[^*]*\*\*|Meta Description[^\n]*:)\s*\n\s*([^\n]+)`. -/
def metaPrefRE : RE :=
  .seq
    (.seq
      (.alt
        (.seq (.lit ("**Meta Description".toList))
          (.seq (.star (fun c => c ≠ '*')) (.lit ("**".toList))))
        (.seq (.lit ("Meta Description".toList))
          (.seq (.star (fun c => c ≠ '\n')) (.lit (":".toList)))))
      (.seq (.star pyIsSpace) (.lit ("\n".toList))))
    (.star pyIsSpace)

/-- Everything before the capture group in `^#\s+(.+)$` (first level-1
heading, `re.MULTILINE`): a hash then `\s+` = one whitespace character
followed by a greedy whitespace star. -/
def h1RE : RE :=
  .seq (.seq (.lit ("#".toList)) (.cls pyIsSpace)) (.star pyIsSpace)

/-- Everything before the capture group in `^\d+\.\s+(.+)$` (numbered
keyword lines, `re.MULTILINE`). -/
def kwRE : RE :=
  .seq (.seq (.seq (.seq (.cls Char.isDigit) (.star Char.isDigit)) (.lit (".".toList)))
    (.cls pyIsSpace)) (.star pyIsSpace)

/-- `re.search` for the SEO-title pattern: the captured group, if any. -/
def searchTitleMd (s : List Char) : Option (List Char) :=
  searchAll (fun u => reRun titlePrefRE u capLine) s

/-- `re.search` for the meta-description pattern. -/
def searchMetaMd (s : List Char) : Option (List Char) :=
  searchAll (fun u => reRun metaPrefRE u capLine) s

/-- `re.search` for the first `# `-heading of the body (`re.MULTILINE`). -/
def searchH1Md (s : List Char) : Option (List Char) :=
  searchLineStarts (fun u => reRun h1RE u capLine) s

/-- The next line start strictly after the current position, if any. -/
def nextLineStart (s : List Char) : Option (List Char) :=
  match s.dropWhile (fun c => c ≠ '\n') with
  | [] => none
  | _ :: t => some t

/-- `re.findall` iteration for a `^`-anchored pattern: try the matcher at
each line start; after a match, resume scanning at the line start that
follows the matched text.  The fuel only serves termination and is
supplied generously by `findallKw`. -/
def findIter (m : List Char → Option (List Char × List Char)) : Nat → List Char → List (List Char)
  | 0, _ => []
  | f + 1, s =>
    match m s with
    | some cr =>
      cr.1 ::
        (match nextLineStart cr.2 with
         | none => []
         | some s2 => findIter m f s2)
    | none =>
      match nextLineStart s with
      | none => []
      | some s2 => findIter m f s2

/-- `re.findall(r"^\d+\.\s+(.+)$", s, re.MULTILINE)`: all captured groups. -/
def findallKw (s : List Char) : List (List Char) :=
  findIter (fun u => reRun kwRE u capLineRest) (s.length + 1) s

/-- Python's `", ".join`. -/
def joinCommaSpace : List (List Char) → List Char
  | [] => []
  | [x] => x
  | x :: y :: ys => x ++ (", ".toList) ++ joinCommaSpace (y :: ys)

/-- The separator `"\n---\n"` used by `parse_md_draft`. -/
def mdSep : List Char := "\n---\n".toList

/-- `parse_md_draft` from generate_blog.py.  `none` models the `sys.exit`
when `text.split("\n---\n", 1)` does not produce two parts.  The external
Markdown-to-HTML collaborator (the `markdown` package) is passed in as an
opaque pure function `mdConvert`, as the specification treats it. -/
def parse_md_draft (mdConvert : List Char → List Char) (text : List Char) :
    Option ArticleRecord :=
  match splitOnFirst mdSep text with
  | none => none
  | some p =>
    let meta_block := pyStrip p.1
    let body_md := pyStrip p.2
    let title1 : List Char :=
      match searchTitleMd meta_block with
      | some cap => (pyStrip cap).take 60
      | none => []
    let meta1 : List Char :=
      match searchMetaMd meta_block with
      | some cap => (pyStrip cap).take 160
      | none => []
    let keywords_list := (((findallKw meta_block).take 5).map pyStrip).filter (fun k => k ≠ [])
    let title : List Char :=
      if title1 = [] then
        match searchH1Md body_md with
        | some cap => (pyStrip cap).take 60
        | none => "Blog Post".toList
      else title1
    some ⟨title,
          if meta1 = [] then defaultMeta else meta1,
          if keywords_list = [] then defaultKw else joinCommaSpace keywords_list,
          mdConvert body_md⟩

/-! ## Derived definitions used by the verification -/

/-- The separation invariant of collapsed output: a dash/whitespace
character is never followed by another one. -/
def sepOK : Char → Char → Prop := fun a b => dashSpace a = true → dashSpace b = false

/-- The per-character effect of the four chained replaces of
`escape_html`. -/
def escChar (c : Char) : List Char :=
  if c = '&' then "&amp;".toList
  else if c = '<' then "&lt;".toList
  else if c = '>' then "&gt;".toList
  else if c = '"' then "&quot;".toList
  else [c]

/-- The four entities introduced by `escape_html`. -/
def entityList : List (List Char) :=
  [("&amp;".toList), ("&lt;".toList), ("&gt;".toList), ("&quot;".toList)]

/-- Every ampersand in `l` starts one of the four escape entities. -/
def AmpOK (l : List Char) : Prop :=
  ∀ (n : Nat) (rest : List Char), l.drop n = '&' :: rest →
    ∃ e ∈ entityList, e <+: '&' :: rest

/-- The part of the initial sitemap document before its closing tag. -/
def sitemapHeader : List Char :=
  ("<?xml version=\"1.0\" encoding=\"UTF-8\"?>\n<urlset xmlns=\"http://www.sitemaps.org/schemas/sitemap/0.9\">\n").toList

/-- The front matter used by the C6 theorem: the three labelled lines in
the order of the generation prompt, each terminated by a newline. -/
def c6front (t m k : List Char) : List Char :=
  titleLabel ++ t ++ ("\n".toList) ++ metaLabel ++ m ++ ("\n".toList) ++ kwLabel ++ k
    ++ ("\n".toList)

/-- The body used by the C6 theorem. -/
def c6body : List Char := "<p>Body</p>".toList

/-- A completion text with all three labels, a separator and a body. -/
def c6raw (t m k : List Char) : List Char :=
  c6front t m k ++ ("---".toList) ++ ("\n<p>Body</p>".toList)

/-- A front matter carrying only the title label. -/
def c6frontT (t : List Char) : List Char :=
  titleLabel ++ t ++ ("\n".toList)

/-- A completion text with only the title label, a separator and a body:
the meta description and keywords labels are missing. -/
def c6rawT (t : List Char) : List Char :=
  c6frontT t ++ ("---".toList) ++ ("\n<p>Body</p>".toList)

/-! ## Character-level lemmas -/

lemma pyToLower_toNat_upper {c : Char} (h : 65 ≤ c.toNat ∧ c.toNat ≤ 90) :
    (pyToLower c).toNat = c.toNat + 32 := by
  unfold pyToLower
  rw [if_pos h]
  unfold Char.ofNat
  rw [dif_pos (Or.inl (by omega))]
  rfl

lemma pyToLower_eq_self_of_not_upper {c : Char} (h : ¬(65 ≤ c.toNat ∧ c.toNat ≤ 90)) :
    pyToLower c = c := by
  unfold pyToLower
  rw [if_neg h]

lemma pyToLower_idem (c : Char) : pyToLower (pyToLower c) = pyToLower c := by
  by_cases h : 65 ≤ c.toNat ∧ c.toNat ≤ 90
  · apply pyToLower_eq_self_of_not_upper
    rw [pyToLower_toNat_upper h]
    omega
  · rw [pyToLower_eq_self_of_not_upper h]
    exact pyToLower_eq_self_of_not_upper h

lemma pyToLower_ne_of_upper {c : Char} (h : 65 ≤ c.toNat ∧ c.toNat ≤ 90) :
    pyToLower c ≠ c := by
  intro he
  have ht : (pyToLower c).toNat = c.toNat := by rw [he]
  rw [pyToLower_toNat_upper h] at ht
  omega

lemma isUpper_iff_toNat {c : Char} : c.isUpper = true ↔ 65 ≤ c.toNat ∧ c.toNat ≤ 90 := by
  simp [Char.isUpper, UInt32.le_def, BitVec.le_def, Char.toNat, UInt32.toNat]

/-! ## Membership and structure lemmas for the slug pipeline -/

lemma head?_of_pref {l₁ l₂ : List Char} {c : Char} (h : l₁ <+: l₂)
    (hc : l₁.head? = some c) : l₂.head? = some c := by
  obtain ⟨t, rfl⟩ := h
  rw [List.head?_append, hc]
  rfl

lemma mem_pyStrip {c : Char} {l : List Char} (h : c ∈ pyStrip l) : c ∈ l := by
  unfold pyStrip at h
  exact (List.dropWhile_sublist _).subset ((List.rdropWhile_prefix _ _).sublist.subset h)

lemma mem_stripDash {c : Char} {l : List Char} (h : c ∈ stripDash l) : c ∈ l := by
  unfold stripDash at h
  exact (List.dropWhile_sublist _).subset ((List.rdropWhile_prefix _ _).sublist.subset h)

lemma map_eq_self_of_mem {f : Char → Char} :
    ∀ {l : List Char}, (∀ c ∈ l, f c = c) → l.map f = l
  | [], _ => rfl
  | c :: cs, h => by
    have hc := h c (List.mem_cons_self c cs)
    have ht := map_eq_self_of_mem (fun d hd => h d (List.mem_cons_of_mem c hd))
    simp [hc, ht]

lemma mem_collapseRuns {P : Char → Prop} :
    ∀ (l : List Char) (b : Bool), (∀ c ∈ l, P c) →
      ∀ c ∈ collapseRuns b l, (P c ∧ dashSpace c = false) ∨ c = '-'
  | [], _, _, c, hc => by simp [collapseRuns] at hc
  | a :: as, b, h, c, hc => by
    have hta : ∀ d ∈ as, P d := fun d hd => h d (List.mem_cons_of_mem a hd)
    by_cases hd : dashSpace a = true
    · rcases b with _ | _
      · rw [show collapseRuns false (a :: as) = '-' :: collapseRuns true as by
          simp [collapseRuns, hd]] at hc
        rcases List.mem_cons.mp hc with h1 | h1
        · exact Or.inr h1
        · exact mem_collapseRuns as true hta c h1
      · rw [show collapseRuns true (a :: as) = collapseRuns true as by
          simp [collapseRuns, hd]] at hc
        exact mem_collapseRuns as true hta c hc
    · rw [show collapseRuns b (a :: as) = a :: collapseRuns false as by
        simp [collapseRuns, hd]] at hc
      rcases List.mem_cons.mp hc with h1 | h1
      · exact Or.inl ⟨h1 ▸ h a (List.mem_cons_self a as), h1 ▸ (by simpa using hd)⟩
      · exact mem_collapseRuns as false hta c h1

lemma collapseRuns_chain :
    ∀ (l : List Char),
      (∀ b, (collapseRuns b l).Chain' sepOK) ∧
        (∀ c, (collapseRuns true l).head? = some c → dashSpace c = false)
  | [] => by constructor
             · intro b
               simp [collapseRuns]
             · intro c hc
               simp [collapseRuns] at hc
  | a :: as => by
    obtain ⟨ih1, ih2⟩ := collapseRuns_chain as
    by_cases hd : dashSpace a = true
    · constructor
      · intro b
        rcases b with _ | _
        · rw [show collapseRuns false (a :: as) = '-' :: collapseRuns true as by
            simp [collapseRuns, hd]]
          rw [List.chain'_cons']
          exact ⟨fun y hy => fun _ => ih2 y hy, ih1 true⟩
        · rw [show collapseRuns true (a :: as) = collapseRuns true as by
            simp [collapseRuns, hd]]
          exact ih1 true
      · intro c hc
        rw [show collapseRuns true (a :: as) = collapseRuns true as by
          simp [collapseRuns, hd]] at hc
        exact ih2 c hc
    · constructor
      · intro b
        rw [show collapseRuns b (a :: as) = a :: collapseRuns false as by
          simp [collapseRuns, hd]]
        rw [List.chain'_cons']
        refine ⟨fun y hy => fun ha => absurd ha hd, ih1 false⟩
      · intro c hc
        rw [show collapseRuns true (a :: as) = a :: collapseRuns false as by
          simp [collapseRuns, hd]] at hc
        simp at hc
        subst hc
        simpa using hd

lemma collapseRuns_eq_self :
    ∀ {l : List Char}, (∀ c ∈ l, pyIsSpace c = false) → l.Chain' sepOK →
      collapseRuns false l = l
  | [], _, _ => rfl
  | a :: as, hs, hch => by
    have hta : ∀ d ∈ as, pyIsSpace d = false := fun d hd => hs d (List.mem_cons_of_mem a hd)
    have ihas : collapseRuns false as = as :=
      collapseRuns_eq_self hta ((List.chain'_cons'.mp hch).2)
    by_cases hd : dashSpace a = true
    · have ha : a = '-' := by
        have := hs a (List.mem_cons_self a as)
        unfold dashSpace at hd
        simp [this] at hd
        exact hd
      have htrue : collapseRuns true as = as := by
        rcases as with _ | ⟨d, ds⟩
        · rfl
        · have hsep : dashSpace d = false := by
            have := (List.chain'_cons'.mp hch).1 d (by rfl)
            exact this hd
          rw [show collapseRuns true (d :: ds) = d :: collapseRuns false ds by
            simp [collapseRuns, hsep]]
          rw [show collapseRuns false (d :: ds) = d :: collapseRuns false ds by
            simp [collapseRuns, hsep]] at ihas
          exact ihas
      rw [show collapseRuns false (a :: as) = '-' :: collapseRuns true as by
        simp [collapseRuns, hd]]
      rw [htrue, ha]
    · rw [show collapseRuns false (a :: as) = a :: collapseRuns false as by
        simp [collapseRuns, hd]]
      rw [ihas]

/-! ## Properties of slugCore -/

lemma slugCore_mem {t : List Char} :
    ∀ c ∈ slugCore t,
      pyIsSpace c = false ∧ pyToLower c = c ∧ (pyIsWordChar c = true ∨ c = '-') := by
  intro c hc
  unfold slugCore at hc
  have hc2 : c ∈ collapseRuns false ((pyStrip (t.map pyToLower)).filter slugKeep) :=
    (List.take_sublist _ _).subset (mem_stripDash hc)
  have hP : ∀ d ∈ (pyStrip (t.map pyToLower)).filter slugKeep,
      slugKeep d = true ∧ pyToLower d = d := by
    intro d hd
    have hk : slugKeep d = true := List.of_mem_filter hd
    have hmem : d ∈ t.map pyToLower := mem_pyStrip (List.mem_of_mem_filter hd)
    obtain ⟨e, _, rfl⟩ := List.mem_map.mp hmem
    exact ⟨hk, pyToLower_idem e⟩
  rcases mem_collapseRuns _ false hP c hc2 with ⟨⟨hk, hf⟩, hds⟩ | hdash
  · have hns : pyIsSpace c = false := by
      unfold dashSpace at hds
      rcases Bool.or_eq_false_iff.mp hds with ⟨_, h2⟩
      exact h2
    have hw : pyIsWordChar c = true := by
      unfold slugKeep at hk
      rcases Bool.or_eq_true_iff.mp hk with h1 | h2
      · rcases Bool.or_eq_true_iff.mp h1 with h3 | h4
        · exact h3
        · rw [h4] at hns
          exact absurd hns (by simp)
      · unfold dashSpace at hds
        rcases Bool.or_eq_false_iff.mp hds with ⟨h5, _⟩
        rw [h2] at h5
        exact absurd h5 (by simp)
    exact ⟨hns, hf, Or.inl hw⟩
  · subst hdash
    exact ⟨by decide, by decide, Or.inr rfl⟩

lemma slugCore_chain (t : List Char) : (slugCore t).Chain' sepOK := by
  unfold slugCore stripDash
  apply List.Chain'.prefix _ (List.rdropWhile_prefix _ _)
  apply List.Chain'.suffix _ (List.dropWhile_suffix _)
  exact ((collapseRuns_chain _).1 false).take _

lemma slugCore_head {t : List Char} {c : Char} (h : (slugCore t).head? = some c) :
    c ≠ '-' := by
  unfold slugCore stripDash at h
  have h2 := head?_of_pref (List.rdropWhile_prefix _ _) h
  have h3 := List.head?_dropWhile_not (fun c => c = '-')
    ((collapseRuns false ((pyStrip (t.map pyToLower)).filter slugKeep)).take 80)
  rw [h2] at h3
  simpa using h3

lemma getLast?_rdropWhile_not (p : Char → Bool) (l : List Char) {c : Char}
    (h : (l.rdropWhile p).getLast? = some c) : p c = false := by
  rw [List.rdropWhile, List.getLast?_reverse] at h
  have h3 := List.head?_dropWhile_not p l.reverse
  rw [h] at h3
  simpa using h3

lemma slugCore_last {t : List Char} {c : Char} (h : (slugCore t).getLast? = some c) :
    c ≠ '-' := by
  unfold slugCore stripDash at h
  have := getLast?_rdropWhile_not (fun c => c = '-') _ h
  simpa using this

lemma slugCore_len (t : List Char) : (slugCore t).length ≤ 80 := by
  unfold slugCore stripDash
  calc ((((collapseRuns false ((pyStrip (t.map pyToLower)).filter slugKeep)).take 80).dropWhile
          (fun c => c = '-')).rdropWhile (fun c => c = '-')).length
      ≤ (((collapseRuns false ((pyStrip (t.map pyToLower)).filter slugKeep)).take 80).dropWhile
          (fun c => c = '-')).length := (List.rdropWhile_prefix _ _).sublist.length_le
    _ ≤ ((collapseRuns false ((pyStrip (t.map pyToLower)).filter slugKeep)).take 80).length :=
        (List.dropWhile_sublist _).length_le
    _ ≤ 80 := by
        rw [List.length_take]
        exact min_le_left _ _

lemma dropWhile_eq_self_of_head {p : Char → Bool} {l : List Char}
    (h : ∀ c, l.head? = some c → p c = false) : l.dropWhile p = l := by
  cases l with
  | nil => rfl
  | cons a as => simp [List.dropWhile_cons, h a rfl]

lemma rdropWhile_eq_self_of_last {p : Char → Bool} {l : List Char}
    (h : ∀ c, l.getLast? = some c → p c = false) : l.rdropWhile p = l := by
  rw [List.rdropWhile_eq_self_iff]
  intro hl
  have hp := h _ (List.getLast?_eq_getLast _ hl)
  simp [hp]

lemma pyStrip_eq_self {l : List Char} (h : ∀ c ∈ l, pyIsSpace c = false) :
    pyStrip l = l := by
  unfold pyStrip
  rw [dropWhile_eq_self_of_head (fun c hc => h c (List.mem_of_mem_head? hc))]
  rw [rdropWhile_eq_self_of_last (fun c hc => h c (List.mem_of_mem_getLast? hc))]

lemma slugCore_eq_self {r : List Char}
    (hm : ∀ c ∈ r, pyIsSpace c = false ∧ pyToLower c = c ∧ (pyIsWordChar c = true ∨ c = '-'))
    (hch : r.Chain' sepOK)
    (hlen : r.length ≤ 80)
    (hh : ∀ c, r.head? = some c → c ≠ '-')
    (hl : ∀ c, r.getLast? = some c → c ≠ '-') :
    slugCore r = r := by
  unfold slugCore
  rw [map_eq_self_of_mem (fun c hc => (hm c hc).2.1)]
  rw [pyStrip_eq_self (fun c hc => (hm c hc).1)]
  rw [List.filter_eq_self.mpr (fun c hc => by
    rcases (hm c hc).2.2 with hw | hd
    · unfold slugKeep
      rw [hw]
      rfl
    · subst hd
      decide)]
  rw [collapseRuns_eq_self (fun c hc => (hm c hc).1) hch]
  rw [List.take_of_length_le hlen]
  unfold stripDash
  rw [dropWhile_eq_self_of_head (fun c hc => by simpa using hh c hc)]
  rw [rdropWhile_eq_self_of_last (fun c hc => by simpa using hl c hc)]

/-! ## Claim theorems about slugify (C4, C9, C10) -/

/-- C4 (amended): for every input, every character of the slug is either
a word character (regex class `\w`) left unchanged by lowercasing, or a
hyphen; the slug never begins or ends with a hyphen; and its length is
at most 80.  The fixed charset of the original claim is refuted:
Python's `\w` keeps underscores (and, being Unicode-aware, non-ASCII
word characters), so the slug alphabet is not limited to lowercase ASCII
letters, digits and hyphens.  The statement here only asserts membership
in the word class, so it does not depend on the class's extent. -/
theorem C4_amended_slug_charset :
    ∀ text : List Char,
      (∀ c ∈ slugify text, (pyIsWordChar c = true ∧ pyToLower c = c) ∨ c = '-') ∧
      (slugify text).head? ≠ some '-' ∧
      (slugify text).getLast? ≠ some '-' ∧
      (slugify text).length ≤ 80 := by
  intro text
  by_cases h : slugCore text = []
  · have hp : slugify text = ("post".toList) := by
      unfold slugify
      rw [if_pos h]
    rw [hp]
    exact ⟨by decide, by decide, by decide, by decide⟩
  · have hs : slugify text = slugCore text := by
      unfold slugify
      rw [if_neg h]
    rw [hs]
    refine ⟨?_, ?_, ?_, slugCore_len text⟩
    · intro c hc
      obtain ⟨hns, hf, hwd⟩ := slugCore_mem c hc
      rcases hwd with hw | hd
      · exact Or.inl ⟨hw, hf⟩
      · exact Or.inr hd
    · intro hh
      exact slugCore_head hh rfl
    · intro hh
      exact slugCore_last hh rfl

/-- Witness for C4: the amended theorem applied at a concrete input. -/
theorem C4_amended_slug_charset_witness :
    (pyIsWordChar 'a' = true ∧ pyToLower 'a' = 'a') ∨ 'a' = '-' :=
  (C4_amended_slug_charset ("a".toList)).1 'a' (by decide)

/-- C4 counterexample: `slugify "a_b" = "a_b"` keeps the underscore, which
is not a lowercase letter, a digit, or a hyphen, refuting the claim that
slugs contain only those characters. -/
theorem C4_counterexample_underscore :
    slugify ("a_b".toList) = ("a_b".toList) ∧
    ('_' ∈ slugify ("a_b".toList)) ∧
    ¬('_'.isLower = true ∨ '_'.isDigit = true ∨ '_' = '-') := by decide

/-- C9: slugify is deterministic and idempotent, and maps the spec's
example title "Zero Trust Architecture: A 2024 Guide!" to
"zero-trust-architecture-a-2024-guide". -/
theorem C9_slugify_idempotent :
    (∀ t1 t2 : List Char, t1 = t2 → slugify t1 = slugify t2) ∧
    (∀ t : List Char, slugify (slugify t) = slugify t) ∧
    slugify ("Zero Trust Architecture: A 2024 Guide!".toList) =
      ("zero-trust-architecture-a-2024-guide".toList) := by
  refine ⟨fun t1 t2 h => by rw [h], fun t => ?_, by decide⟩
  by_cases h : slugCore t = []
  · have hp : slugify t = ("post".toList) := by
      unfold slugify
      rw [if_pos h]
    rw [hp]
    decide
  · have hs : slugify t = slugCore t := by
      unfold slugify
      rw [if_neg h]
    rw [hs]
    have hid : slugCore (slugCore t) = slugCore t :=
      slugCore_eq_self (fun c hc => slugCore_mem c hc) (slugCore_chain t) (slugCore_len t)
        (fun c hc => slugCore_head hc) (fun c hc => slugCore_last hc)
    unfold slugify
    rw [hid, if_neg h]

/-- Witness for C9: determinism applied at a concrete input. -/
theorem C9_slugify_idempotent_witness :
    slugify ("Alpha".toList) = slugify ("Alpha".toList) :=
  C9_slugify_idempotent.1 ("Alpha".toList) ("Alpha".toList) rfl

/-- C10: slugify never returns the empty string; inputs whose pipeline
collapses to nothing (the empty string, punctuation-only strings) fall
back to the fixed slug "post". -/
theorem C10_slugify_nonempty :
    (∀ text : List Char, slugify text ≠ []) ∧
    slugify [] = ("post".toList) ∧
    slugify ("!!!".toList) = ("post".toList) := by
  refine ⟨fun text => ?_, by decide, by decide⟩
  by_cases h : slugCore text = []
  · unfold slugify
    rw [if_pos h]
    decide
  · unfold slugify
    rw [if_neg h]
    exact h

/-- Witness for C10: non-emptiness applied at a concrete input. -/
theorem C10_slugify_nonempty_witness : slugify ("x".toList) ≠ [] :=
  C10_slugify_nonempty.1 ("x".toList)

/-! ## Lemmas about splitOnFirst -/

lemma splitOnFirst_eq_none_iff {pat : List Char} (hp : pat ≠ []) :
    ∀ {s : List Char}, splitOnFirst pat s = none ↔ ¬ pat <:+: s
  | [] => by
    constructor
    · intro _ hinf
      exact hp (List.eq_nil_of_infix_nil hinf)
    · intro _
      rfl
  | c :: cs => by
    unfold splitOnFirst
    by_cases hpre : pat.isPrefixOf (c :: cs)
    · rw [if_pos hpre]
      simp only [List.infix_cons_iff]
      constructor
      · intro h
        exact absurd h (by simp)
      · intro h
        exact absurd (Or.inl (List.isPrefixOf_iff_prefix.mp hpre)) h
    · rw [if_neg hpre]
      rw [Option.map_eq_none']
      rw [@splitOnFirst_eq_none_iff pat hp cs]
      constructor
      · intro h hinf
        rcases List.infix_cons_iff.mp hinf with h1 | h2
        · exact hpre (List.isPrefixOf_iff_prefix.mpr h1)
        · exact h h2
      · intro h h2
        exact h (List.infix_cons h2)

lemma splitOnFirst_eq_some :
    ∀ {s : List Char} {pat a b : List Char}, splitOnFirst pat s = some (a, b) →
      s = a ++ pat ++ b ∧ ∀ a2 b2, s = a2 ++ pat ++ b2 → a.length ≤ a2.length
  | [], pat, a, b => by
    intro h
    exact absurd h (by simp [splitOnFirst])
  | c :: cs, pat, a, b => by
    unfold splitOnFirst
    by_cases hpre : pat.isPrefixOf (c :: cs)
    · rw [if_pos hpre]
      intro h
      obtain ⟨ha, hb⟩ : a = [] ∧ (c :: cs).drop pat.length = b := by
        have := Option.some.inj h
        exact ⟨(Prod.mk.injEq _ _ _ _ ▸ this).1.symm, (Prod.mk.injEq _ _ _ _ ▸ this).2⟩
      subst ha
      obtain ⟨t, ht⟩ := List.isPrefixOf_iff_prefix.mp hpre
      constructor
      · rw [← ht] at hb ⊢
        rw [List.drop_left] at hb
        rw [hb]
        rfl
      · intro a2 b2 _
        exact Nat.zero_le _
    · rw [if_neg hpre]
      intro h
      rw [Option.map_eq_some'] at h
      obtain ⟨⟨a0, b0⟩, hrec, heq⟩ := h
      obtain ⟨hs, hmin⟩ := splitOnFirst_eq_some hrec
      obtain ⟨ha, hb⟩ : c :: a0 = a ∧ b0 = b := by
        exact ⟨(Prod.mk.injEq _ _ _ _ ▸ heq).1, (Prod.mk.injEq _ _ _ _ ▸ heq).2⟩
      subst ha
      subst hb
      constructor
      · rw [hs]
        rfl
      · intro a2 b2 h2
        rcases a2 with _ | ⟨d, a3⟩
        · exfalso
          apply hpre
          rw [List.isPrefixOf_iff_prefix]
          simp only [List.nil_append] at h2
          rw [h2]
          exact List.prefix_append pat b2
        · have hcd : c = d ∧ cs = a3 ++ pat ++ b2 := by
            have h3 := h2
            rw [List.cons_append, List.cons_append] at h3
            exact ⟨List.head_eq_of_cons_eq h3, List.tail_eq_of_cons_eq h3⟩
          have := hmin a3 b2 hcd.2
          simp only [List.length_cons]
          omega

lemma splitOnFirst_append {pat : List Char} (hp : pat ≠ []) :
    ∀ {A : List Char} (B : List Char), ¬ pat <:+: (A ++ pat.dropLast) →
      splitOnFirst pat (A ++ pat ++ B) = some (A, B)
  | [], B, _ => by
    rcases pat with _ | ⟨p, ps⟩
    · exact absurd rfl hp
    · simp only [List.nil_append]
      rw [List.cons_append]
      unfold splitOnFirst
      rw [if_pos (List.isPrefixOf_iff_prefix.mpr (by
        rw [← List.cons_append]
        exact List.prefix_append _ _))]
      rw [← List.cons_append, List.drop_left]
  | c :: A2, B, hA => by
    have hplen : 1 ≤ pat.length := List.length_pos.mpr hp
    have hpre : ¬ pat.isPrefixOf ((c :: A2) ++ pat ++ B) := by
      intro hmem0
      have hmem := List.isPrefixOf_iff_prefix.mp hmem0
      apply hA
      apply List.IsPrefix.isInfix
      have hc : (c :: A2) ++ pat.dropLast =
          ((c :: A2) ++ pat ++ B).take ((c :: A2).length + (pat.length - 1)) := by
        rw [List.append_assoc, List.take_append, List.dropLast_eq_take,
          List.take_append_of_le_length (by omega)]
      rw [hc, List.prefix_take_iff]
      refine ⟨hmem, ?_⟩
      simp only [List.length_cons]
      omega
    rw [List.cons_append, List.cons_append]
    unfold splitOnFirst
    rw [if_neg (by
      rw [← List.cons_append, ← List.cons_append]
      exact fun hx => hpre hx)]
    rw [splitOnFirst_append hp B (fun hinf => hA (List.infix_cons hinf))]
    rfl

/-! ## Claim theorems C5 (generated-content separator) and C2 (md split) -/

/-- C5: parse_generated_content fails fatally exactly when the normalized
raw text contains no "---" substring; when one is present it returns a
record whose content is taken from the text after the first occurrence
(stripped, with the fixed placeholder substituted when empty). -/
theorem C5_pgc_separator_fatal :
    ∀ raw : List Char,
      (parse_generated_content raw = none ↔ ¬ ("---".toList) <:+: normRaw raw) ∧
      (∀ r, parse_generated_content raw = some r →
        ∃ front rest, normRaw raw = front ++ ("---".toList) ++ rest ∧
          (∀ f2 r2, normRaw raw = f2 ++ ("---".toList) ++ r2 → front.length ≤ f2.length) ∧
          r.content = (if pyStrip rest = [] then defaultContent else pyStrip rest)) := by
  intro raw
  unfold parse_generated_content
  cases hsp : splitOnFirst ("---".toList) (normRaw raw) with
  | none =>
    refine ⟨?_, ?_⟩
    · simp only [hsp]
      constructor
      · intro _
        exact (splitOnFirst_eq_none_iff (by decide)).mp hsp
      · intro _
        simp
    · intro r hr
      simp only [hsp] at hr
      exact absurd hr (by simp)
  | some fc =>
    obtain ⟨hdec, hmin⟩ := splitOnFirst_eq_some hsp
    refine ⟨?_, ?_⟩
    · simp only [hsp]
      constructor
      · intro h
        exact absurd h (by simp)
      · intro h
        exfalso
        apply h
        rw [hdec]
        exact ⟨fc.1, fc.2, by simp⟩
    · intro r hr
      simp only [hsp] at hr
      refine ⟨fc.1, fc.2, hdec, hmin, ?_⟩
      have := Option.some.inj hr
      rw [← this]

/-- Witness for C5: the separator-present branch at a concrete input. -/
theorem C5_pgc_separator_fatal_witness :
    ∃ front rest,
      normRaw ("T\n---\nB".toList) = front ++ ("---".toList) ++ rest ∧
      (∀ f2 r2, normRaw ("T\n---\nB".toList) = f2 ++ ("---".toList) ++ r2 →
        front.length ≤ f2.length) ∧
      (ArticleRecord.mk defaultTitle defaultMeta defaultKw ("B".toList)).content =
        (if pyStrip rest = [] then defaultContent else pyStrip rest) :=
  (C5_pgc_separator_fatal ("T\n---\nB".toList)).2
    ⟨defaultTitle, defaultMeta, defaultKw, ("B".toList)⟩ (by decide)

/-- C2 (amended): parse_md_draft fails fatally exactly when the file text
contains no occurrence of the separator line (the substring "\n---\n");
because the source splits with maxsplit 1, a document with two or more
separator lines is split at the first one and accepted, not rejected. -/
theorem C2_amended_md_split :
    ∀ (conv : List Char → List Char) (text : List Char),
      parse_md_draft conv text = none ↔ ¬ mdSep <:+: text := by
  intro conv text
  unfold parse_md_draft
  cases hsp : splitOnFirst mdSep text with
  | none =>
    constructor
    · intro _
      exact (splitOnFirst_eq_none_iff (by decide)).mp hsp
    · intro _
      rfl
  | some p =>
    constructor
    · intro h
      exact absurd h (by simp)
    · intro h
      exfalso
      apply h
      rw [(splitOnFirst_eq_some hsp).1]
      exact ⟨p.1, p.2, by simp⟩

/-- Witness for C2: both directions of the amended iff at concrete inputs. -/
theorem C2_amended_md_split_witness :
    parse_md_draft (fun l => l) ("no separator at all".toList) = none :=
  (C2_amended_md_split (fun l => l) _).mpr (by decide)

/-- C2 counterexample: a document with two "---" separator lines is
accepted (split at the first), refuting the claim that two or more
separators are rejected as malformed. -/
theorem C2_counterexample_two_separators :
    parse_md_draft (fun l => l) ("a\n---\nb\n---\nc".toList) =
      some ⟨("Blog Post".toList), defaultMeta, defaultKw, ("b\n---\nc".toList)⟩ := by decide

/-! ## Lemmas about pyReplace -/

lemma replaceFuel_nil (pat rep : List Char) (f : Nat) : replaceFuel pat rep f [] = [] := by
  cases f <;> rfl

lemma replaceFuel_eq_self {pat rep : List Char} :
    ∀ {s : List Char} (f : Nat), ¬ pat <:+: s → replaceFuel pat rep f s = s
  | [], f, _ => replaceFuel_nil pat rep f
  | _ :: _, 0, _ => rfl
  | c :: cs, f + 1, h => by
    have hpre : ¬ pat.isPrefixOf (c :: cs) :=
      fun hx => h ((List.isPrefixOf_iff_prefix.mp hx).isInfix)
    simp only [replaceFuel]
    rw [if_neg hpre]
    rw [replaceFuel_eq_self f (fun hx => h (List.infix_cons hx))]

lemma replaceFuel_fuel_stable {pat rep : List Char} (hp : pat ≠ []) :
    ∀ (n : Nat) {s : List Char} (f1 f2 : Nat), s.length ≤ n → s.length ≤ f1 →
      s.length ≤ f2 → replaceFuel pat rep f1 s = replaceFuel pat rep f2 s
  | 0, s, f1, f2, hn, _, _ => by
    have : s = [] := List.eq_nil_of_length_eq_zero (Nat.le_zero.mp hn)
    subst this
    rw [replaceFuel_nil, replaceFuel_nil]
  | n + 1, [], f1, f2, _, _, _ => by
    rw [replaceFuel_nil, replaceFuel_nil]
  | n + 1, c :: cs, f1, f2, hn, h1, h2 => by
    have hplen : 1 ≤ pat.length := List.length_pos.mpr hp
    rcases f1 with _ | g1
    · exact absurd h1 (by simp)
    rcases f2 with _ | g2
    · exact absurd h2 (by simp)
    simp only [replaceFuel]
    by_cases hpre : pat.isPrefixOf (c :: cs)
    · rw [if_pos hpre, if_pos hpre]
      congr 1
      apply replaceFuel_fuel_stable hp n
      · rw [List.length_drop]
        simp only [List.length_cons] at hn ⊢
        omega
      · rw [List.length_drop]
        simp only [List.length_cons] at h1 ⊢
        omega
      · rw [List.length_drop]
        simp only [List.length_cons] at h2 ⊢
        omega
    · rw [if_neg hpre, if_neg hpre]
      congr 1
      apply replaceFuel_fuel_stable hp n
      · simp only [List.length_cons] at hn
        omega
      · simp only [List.length_cons] at h1
        omega
      · simp only [List.length_cons] at h2
        omega

lemma replaceFuel_append_head {pat rep t : List Char} (hp : pat ≠ []) {f : Nat}
    (hf : (pat ++ t).length ≤ f) :
    replaceFuel pat rep f (pat ++ t) = rep ++ replaceFuel pat rep t.length t := by
  rcases pat with _ | ⟨p, ps⟩
  · exact absurd rfl hp
  rcases f with _ | g
  · exact absurd hf (by simp)
  rw [List.cons_append]
  simp only [replaceFuel]
  rw [if_pos (by
    rw [List.isPrefixOf_iff_prefix, ← List.cons_append]
    exact List.prefix_append _ _)]
  congr 1
  rw [← List.cons_append, List.drop_left]
  apply replaceFuel_fuel_stable hp t.length
  · exact le_refl _
  · simp only [List.length_append, List.length_cons] at hf
    omega
  · exact le_refl _

lemma not_isPrefixOf_cons_append {pat : List Char} (hp : pat ≠ []) {c : Char}
    {A2 B : List Char} (hA : ¬ pat <:+: ((c :: A2) ++ pat.dropLast)) :
    ¬ pat.isPrefixOf ((c :: A2) ++ pat ++ B) := by
  have hplen : 1 ≤ pat.length := List.length_pos.mpr hp
  intro hmem0
  have hmem := List.isPrefixOf_iff_prefix.mp hmem0
  apply hA
  apply List.IsPrefix.isInfix
  have hc : (c :: A2) ++ pat.dropLast =
      ((c :: A2) ++ pat ++ B).take ((c :: A2).length + (pat.length - 1)) := by
    rw [List.append_assoc, List.take_append, List.dropLast_eq_take,
      List.take_append_of_le_length (by omega)]
  rw [hc, List.prefix_take_iff]
  refine ⟨hmem, ?_⟩
  simp only [List.length_cons]
  omega

lemma replaceFuel_middle {pat rep : List Char} (hp : pat ≠ []) :
    ∀ {A : List Char} (B : List Char), ¬ pat <:+: (A ++ pat.dropLast) → ¬ pat <:+: B →
      ∀ {f : Nat}, (A ++ pat ++ B).length ≤ f →
        replaceFuel pat rep f (A ++ pat ++ B) = A ++ rep ++ B
  | [], B, _, hB, f, hf => by
    simp only [List.nil_append] at hf ⊢
    rw [replaceFuel_append_head hp hf]
    rw [replaceFuel_eq_self _ hB]
  | c :: A2, B, hA, hB, f, hf => by
    rcases f with _ | g
    · exact absurd hf (by simp)
    rw [List.cons_append, List.cons_append]
    simp only [replaceFuel]
    rw [if_neg (by
      rw [← List.cons_append, ← List.cons_append]
      exact not_isPrefixOf_cons_append hp hA)]
    rw [replaceFuel_middle hp B (fun hx => hA (List.infix_cons hx)) hB (by
      simp only [List.length_append, List.length_cons] at hf ⊢
      omega)]
    simp

lemma pyReplace_eq_self {pat rep s : List Char} (h : ¬ pat <:+: s) :
    pyReplace pat rep s = s :=
  replaceFuel_eq_self _ h

lemma pyReplace_append_head {pat rep t : List Char} (hp : pat ≠ []) :
    pyReplace pat rep (pat ++ t) = rep ++ pyReplace pat rep t :=
  replaceFuel_append_head hp (le_refl _)

lemma pyReplace_middle {pat rep A B : List Char} (hp : pat ≠ [])
    (hA : ¬ pat <:+: (A ++ pat.dropLast)) (hB : ¬ pat <:+: B) :
    pyReplace pat rep (A ++ pat ++ B) = A ++ rep ++ B :=
  replaceFuel_middle hp B hA hB (le_refl _)

/-! ## escape_html as a character-wise map -/

lemma replaceFuel_single {a : Char} {rep : List Char} :
    ∀ {s : List Char} {f : Nat}, s.length ≤ f →
      replaceFuel [a] rep f s = s.flatMap (fun c => if c = a then rep else [c])
  | [], f, _ => by rw [replaceFuel_nil]; rfl
  | c :: cs, 0, hf => by exact absurd hf (by simp)
  | c :: cs, f + 1, hf => by
    simp only [replaceFuel, List.flatMap_cons]
    have hcs : cs.length ≤ f := by
      simp only [List.length_cons] at hf
      omega
    by_cases hc : c = a
    · rw [if_pos (by simp [List.isPrefixOf_cons₂, hc])]
      rw [if_pos hc]
      congr 1
      have hd : (c :: cs).drop ([a] : List Char).length = cs := by simp
      rw [hd]
      exact replaceFuel_single hcs
    · rw [if_neg (by
        rw [List.isPrefixOf_iff_prefix]
        intro hx
        rw [List.cons_prefix_cons] at hx
        exact hc hx.1.symm)]
      rw [if_neg hc]
      rw [replaceFuel_single hcs]
      rfl

lemma pyReplace_single {a : Char} {rep s : List Char} :
    pyReplace [a] rep s = s.flatMap (fun c => if c = a then rep else [c]) :=
  replaceFuel_single (le_refl _)

lemma escape_html_eq_flatMap (s : List Char) : escape_html s = s.flatMap escChar := by
  unfold escape_html
  rw [show ("&".toList) = ['&'] from rfl, show ("<".toList) = ['<'] from rfl,
    show (">".toList) = ['>'] from rfl, show ("\"".toList) = ['"'] from rfl]
  rw [pyReplace_single, pyReplace_single, pyReplace_single, pyReplace_single]
  rw [List.flatMap_assoc, List.flatMap_assoc, List.flatMap_assoc]
  congr 1
  funext c
  by_cases h1 : c = '&'
  · subst h1
    decide
  · by_cases h2 : c = '<'
    · subst h2
      decide
    · by_cases h3 : c = '>'
      · subst h3
        decide
      · by_cases h4 : c = '"'
        · subst h4
          decide
        · simp [escChar, h1, h2, h3, h4]

lemma ampOK_nil : AmpOK [] := by
  intro n rest h
  simp at h

lemma ampOK_append {b l : List Char} (hl : AmpOK l)
    (hb : ∀ (n : Nat) (rest : List Char), n < b.length → b.drop n ++ l = '&' :: rest →
      ∃ e ∈ entityList, e <+: '&' :: rest) :
    AmpOK (b ++ l) := by
  intro n rest h
  by_cases hn : n < b.length
  · apply hb n rest hn
    rw [← List.drop_append_of_le_length (le_of_lt hn)]
    exact h
  · push_neg at hn
    obtain ⟨m, rfl⟩ := Nat.exists_eq_add_of_le hn
    rw [List.drop_append] at h
    exact hl m rest h

lemma ampOK_append_entity {l : List Char} (hl : AmpOK l) {b : List Char}
    (hmem : b ∈ entityList) (_hhead : b.head? = some '&')
    (hno : ∀ n, 0 < n → n < b.length → ¬ (b.drop n).head? = some '&') :
    AmpOK (b ++ l) := by
  apply ampOK_append hl
  intro n rest hn h
  rcases Nat.eq_zero_or_pos n with h0 | hpos
  · subst h0
    simp only [List.drop_zero] at h
    exact ⟨b, hmem, l, by rw [h]⟩
  · exfalso
    apply hno n hpos hn
    cases hd : b.drop n with
    | nil =>
      have hlen := congrArg List.length hd
      simp only [List.length_drop, List.length_nil] at hlen
      exact absurd hn (by omega)
    | cons x xs =>
      rw [hd, List.cons_append] at h
      rw [List.head_eq_of_cons_eq h]
      rfl

lemma ampOK_append_single {l : List Char} (hl : AmpOK l) {c : Char} (hc : c ≠ '&') :
    AmpOK ([c] ++ l) := by
  apply ampOK_append hl
  intro n rest hn h
  have h0 : n = 0 := by
    simp only [List.length_singleton] at hn
    omega
  subst h0
  simp only [List.drop_zero, List.singleton_append] at h
  exact absurd (List.head_eq_of_cons_eq h) hc

lemma ampOK_flatMap : ∀ s : List Char, AmpOK (s.flatMap escChar)
  | [] => by
    simp only [List.flatMap_nil]
    exact ampOK_nil
  | c :: cs => by
    rw [List.flatMap_cons]
    by_cases h1 : c = '&'
    · subst h1
      rw [show escChar '&' = ("&amp;".toList) from rfl]
      refine ampOK_append_entity (ampOK_flatMap cs) (by decide) (by decide) ?_
      intro n hpos hlt
      rw [show (("&amp;".toList)).length = 5 from rfl] at hlt
      interval_cases n <;> decide
    · by_cases h2 : c = '<'
      · subst h2
        rw [show escChar '<' = ("&lt;".toList) from rfl]
        refine ampOK_append_entity (ampOK_flatMap cs) (by decide) (by decide) ?_
        intro n hpos hlt
        rw [show (("&lt;".toList)).length = 4 from rfl] at hlt
        interval_cases n <;> decide
      · by_cases h3 : c = '>'
        · subst h3
          rw [show escChar '>' = ("&gt;".toList) from rfl]
          refine ampOK_append_entity (ampOK_flatMap cs) (by decide) (by decide) ?_
          intro n hpos hlt
          rw [show (("&gt;".toList)).length = 4 from rfl] at hlt
          interval_cases n <;> decide
        · by_cases h4 : c = '"'
          · subst h4
            rw [show escChar '"' = ("&quot;".toList) from rfl]
            refine ampOK_append_entity (ampOK_flatMap cs) (by decide) (by decide) ?_
            intro n hpos hlt
            rw [show (("&quot;".toList)).length = 6 from rfl] at hlt
            interval_cases n <;> decide
          · rw [show escChar c = [c] by simp [escChar, h1, h2, h3, h4]]
            exact ampOK_append_single (ampOK_flatMap cs) h1

lemma escChar_no_raw (d : Char) : ∀ c ∈ escChar d, c ≠ '<' ∧ c ≠ '>' ∧ c ≠ '"' := by
  by_cases h1 : d = '&'
  · subst h1
    decide
  · by_cases h2 : d = '<'
    · subst h2
      decide
    · by_cases h3 : d = '>'
      · subst h3
        decide
      · by_cases h4 : d = '"'
        · subst h4
          decide
        · rw [show escChar d = [d] by simp [escChar, h1, h2, h3, h4]]
          intro c hc
          rw [List.mem_singleton] at hc
          subst hc
          exact ⟨h2, h3, h4⟩

/-! ## Claim theorem C7 (escape_html) -/

/-- C7: for every string, the escaped output contains no raw `<`, `>` or
`"`, and every `&` in the output starts one of the four entities
introduced by the escaping — because `&` is replaced first, entities
introduced by the later replacements are never double-escaped. -/
theorem C7_escape_html_entities :
    ∀ s : List Char,
      (∀ c ∈ escape_html s, c ≠ '<' ∧ c ≠ '>' ∧ c ≠ '"') ∧
      (∀ (n : Nat) (rest : List Char), (escape_html s).drop n = '&' :: rest →
        ∃ e ∈ entityList, e <+: '&' :: rest) := by
  intro s
  rw [escape_html_eq_flatMap]
  constructor
  · intro c hc
    obtain ⟨d, _, hcd⟩ := List.mem_flatMap.mp hc
    exact escChar_no_raw d c hcd
  · exact ampOK_flatMap s

/-- Witness for C7: the entity property applied at a concrete input. -/
theorem C7_escape_html_entities_witness :
    ∃ e ∈ entityList, e <+: ('&' :: ("amp;x".toList)) :=
  (C7_escape_html_entities ("&x".toList)).2 0 ("amp;x".toList) (by decide)

/-! ## Claim theorem C8 (sitemap append) -/

lemma initialSitemap_decomp :
    initialSitemap = sitemapHeader ++ urlsetClose ++ ("\n".toList) := by decide

/-- C8: appending to a missing/empty sitemap yields exactly the header,
one entry carrying the given URL and lastmod, and the closing tag;
appending a second entry inserts it after the first and before the
closing tag (order preserved, no deduplication); when the closing tag is
missing, the entry is appended after `rstrip` together with a fresh
closing tag.  The hypotheses say that the interpolated entries do not
themselves contain (or complete) a closing tag, which holds for any real
URL and date. -/
theorem C8_sitemap_append (u1 d1 u2 d2 : List Char)
    (h1 : ¬ urlsetClose <:+:
      (sitemapHeader ++ sitemapEntry u1 d1 ++ urlsetClose.dropLast)) :
    add_url_to_sitemap none u1 d1 =
      sitemapHeader ++ sitemapEntry u1 d1 ++ urlsetClose ++ ("\n".toList) ∧
    add_url_to_sitemap (some (add_url_to_sitemap none u1 d1)) u2 d2 =
      sitemapHeader ++ sitemapEntry u1 d1 ++ sitemapEntry u2 d2 ++ urlsetClose
        ++ ("\n".toList) ∧
    (∀ (text u d : List Char), ¬ urlsetClose <:+: text →
      add_url_to_sitemap (some text) u d =
        pyRstrip text ++ ("\n".toList) ++ sitemapEntry u d ++ ("</urlset>\n".toList)) := by
  have hp : urlsetClose ≠ [] := by decide
  have hA0 : ¬ urlsetClose <:+: (sitemapHeader ++ urlsetClose.dropLast) := by decide
  have hB : ¬ urlsetClose <:+: ("\n".toList) := by decide
  have hfirst : add_url_to_sitemap none u1 d1 =
      sitemapHeader ++ sitemapEntry u1 d1 ++ urlsetClose ++ ("\n".toList) := by
    unfold add_url_to_sitemap ensure_sitemap_exists
    rw [if_pos (by decide)]
    rw [initialSitemap_decomp]
    rw [pyReplace_middle hp hA0 hB]
    simp [List.append_assoc]
  refine ⟨hfirst, ?_, ?_⟩
  · rw [hfirst]
    unfold add_url_to_sitemap ensure_sitemap_exists
    have hshape : sitemapHeader ++ sitemapEntry u1 d1 ++ urlsetClose ++ ("\n".toList) =
        (sitemapHeader ++ sitemapEntry u1 d1) ++ urlsetClose ++ ("\n".toList) := by
      simp [List.append_assoc]
    rw [hshape]
    rw [if_pos (by
      rw [splitOnFirst_append hp _ h1]
      rfl)]
    rw [pyReplace_middle hp h1 hB]
    simp [List.append_assoc]
  · intro text u d htext
    unfold add_url_to_sitemap ensure_sitemap_exists
    rw [if_neg (by
      rw [(splitOnFirst_eq_none_iff hp).mpr htext]
      simp)]

/-- Witness for C8: the theorem applied at a concrete URL and date. -/
theorem C8_sitemap_append_witness :
    add_url_to_sitemap none ("https://e/blog/published/p.html".toList) ("2024-01-02".toList) =
      sitemapHeader ++
        sitemapEntry ("https://e/blog/published/p.html".toList) ("2024-01-02".toList) ++
        urlsetClose ++ ("\n".toList) :=
  (C8_sitemap_append ("https://e/blog/published/p.html".toList) ("2024-01-02".toList)
    ("u2".toList) ("2024-01-03".toList) (by decide)).1

/-! ## Lemmas about the metadata loop of parse_generated_content -/

lemma stepMeta_title_match {acc : List Char × List Char × List Char} {l : List Char}
    (h : titleLabel.isPrefixOf (pyStrip l) = true) :
    stepMeta acc l =
      ((pyStrip (pyReplace titleLabel [] (pyStrip l))).take 60, acc.2.1, acc.2.2) := by
  unfold stepMeta
  simp only [h, if_true]

lemma stepMeta_meta_match {acc : List Char × List Char × List Char} {l : List Char}
    (hnt : titleLabel.isPrefixOf (pyStrip l) = false)
    (h : metaLabel.isPrefixOf (pyStrip l) = true) :
    stepMeta acc l =
      (acc.1, (pyStrip (pyReplace metaLabel [] (pyStrip l))).take 160, acc.2.2) := by
  unfold stepMeta
  simp only [hnt, h, Bool.false_eq_true, if_false, if_true]

lemma stepMeta_kw_match {acc : List Char × List Char × List Char} {l : List Char}
    (hnt : titleLabel.isPrefixOf (pyStrip l) = false)
    (hnm : metaLabel.isPrefixOf (pyStrip l) = false)
    (h : kwLabel.isPrefixOf (pyStrip l) = true) :
    stepMeta acc l = (acc.1, acc.2.1, pyStrip (pyReplace kwLabel [] (pyStrip l))) := by
  unfold stepMeta
  simp only [hnt, hnm, h, Bool.false_eq_true, if_false, if_true]

lemma stepMeta_no_match {acc : List Char × List Char × List Char} {l : List Char}
    (hnt : titleLabel.isPrefixOf (pyStrip l) = false)
    (hnm : metaLabel.isPrefixOf (pyStrip l) = false)
    (hnk : kwLabel.isPrefixOf (pyStrip l) = false) :
    stepMeta acc l = acc := by
  unfold stepMeta
  simp only [hnt, hnm, hnk, Bool.false_eq_true, if_false]

lemma stepMeta_fst_of_not_title {acc : List Char × List Char × List Char} {l : List Char}
    (h : titleLabel.isPrefixOf (pyStrip l) = false) :
    (stepMeta acc l).1 = acc.1 := by
  unfold stepMeta
  simp only [h, Bool.false_eq_true, if_false]
  split
  · rfl
  · split
    · rfl
    · rfl

lemma stepMeta_snd_of_not_meta {acc : List Char × List Char × List Char} {l : List Char}
    (h : metaLabel.isPrefixOf (pyStrip l) = false) :
    (stepMeta acc l).2.1 = acc.2.1 := by
  unfold stepMeta
  split
  · rfl
  · simp only [h, Bool.false_eq_true, if_false]
    split
    · rfl
    · rfl

lemma stepMeta_kw_of_not_kw {acc : List Char × List Char × List Char} {l : List Char}
    (h : kwLabel.isPrefixOf (pyStrip l) = false) :
    (stepMeta acc l).2.2 = acc.2.2 := by
  unfold stepMeta
  split
  · rfl
  · split
    · rfl
    · simp only [h, Bool.false_eq_true, if_false]

lemma foldl_stepMeta_fst :
    ∀ (ls : List (List Char)) (acc : List Char × List Char × List Char),
      (∀ l ∈ ls, titleLabel.isPrefixOf (pyStrip l) = false) →
      (ls.foldl stepMeta acc).1 = acc.1
  | [], _, _ => rfl
  | l :: ls, acc, h => by
    rw [List.foldl_cons]
    rw [foldl_stepMeta_fst ls _ (fun x hx => h x (List.mem_cons_of_mem _ hx))]
    exact stepMeta_fst_of_not_title (h l (List.mem_cons_self _ _))

lemma foldl_stepMeta_snd :
    ∀ (ls : List (List Char)) (acc : List Char × List Char × List Char),
      (∀ l ∈ ls, metaLabel.isPrefixOf (pyStrip l) = false) →
      (ls.foldl stepMeta acc).2.1 = acc.2.1
  | [], _, _ => rfl
  | l :: ls, acc, h => by
    rw [List.foldl_cons]
    rw [foldl_stepMeta_snd ls _ (fun x hx => h x (List.mem_cons_of_mem _ hx))]
    exact stepMeta_snd_of_not_meta (h l (List.mem_cons_self _ _))

lemma foldl_stepMeta_kw :
    ∀ (ls : List (List Char)) (acc : List Char × List Char × List Char),
      (∀ l ∈ ls, kwLabel.isPrefixOf (pyStrip l) = false) →
      (ls.foldl stepMeta acc).2.2 = acc.2.2
  | [], _, _ => rfl
  | l :: ls, acc, h => by
    rw [List.foldl_cons]
    rw [foldl_stepMeta_kw ls _ (fun x hx => h x (List.mem_cons_of_mem _ hx))]
    exact stepMeta_kw_of_not_kw (h l (List.mem_cons_self _ _))

/-! ## Claim theorem C3 (label recognition, match order, defaults) -/

/-- C3 (amended): each field is recognized by its fixed label prefix on
the stripped line, but when several lines carry the same label the LAST
matching line wins (each match overwrites the field).  When no line
matches a label the field stays empty, so the fixed default is
substituted (shown concretely on parse_generated_content). -/
theorem C3_amended_label_extraction :
    (∀ (ls1 : List (List Char)) (l : List Char) (ls2 : List (List Char)),
      titleLabel.isPrefixOf (pyStrip l) = true →
      (∀ l2 ∈ ls2, titleLabel.isPrefixOf (pyStrip l2) = false) →
      (extractMeta (ls1 ++ l :: ls2)).1 =
        (pyStrip (pyReplace titleLabel [] (pyStrip l))).take 60) ∧
    (∀ (ls1 : List (List Char)) (l : List Char) (ls2 : List (List Char)),
      titleLabel.isPrefixOf (pyStrip l) = false →
      metaLabel.isPrefixOf (pyStrip l) = true →
      (∀ l2 ∈ ls2, metaLabel.isPrefixOf (pyStrip l2) = false) →
      (extractMeta (ls1 ++ l :: ls2)).2.1 =
        (pyStrip (pyReplace metaLabel [] (pyStrip l))).take 160) ∧
    (∀ (ls1 : List (List Char)) (l : List Char) (ls2 : List (List Char)),
      titleLabel.isPrefixOf (pyStrip l) = false →
      metaLabel.isPrefixOf (pyStrip l) = false →
      kwLabel.isPrefixOf (pyStrip l) = true →
      (∀ l2 ∈ ls2, kwLabel.isPrefixOf (pyStrip l2) = false) →
      (extractMeta (ls1 ++ l :: ls2)).2.2 =
        pyStrip (pyReplace kwLabel [] (pyStrip l))) ∧
    (∀ lines : List (List Char),
      (∀ l ∈ lines, titleLabel.isPrefixOf (pyStrip l) = false ∧
        metaLabel.isPrefixOf (pyStrip l) = false ∧
        kwLabel.isPrefixOf (pyStrip l) = false) →
      extractMeta lines = ([], [], [])) ∧
    parse_generated_content ("no labels here\n---\nX".toList) =
      some ⟨defaultTitle, defaultMeta, defaultKw, ("X".toList)⟩ := by
  refine ⟨?_, ?_, ?_, ?_, by decide⟩
  · intro ls1 l ls2 hl hls2
    unfold extractMeta
    rw [List.foldl_append, List.foldl_cons]
    rw [foldl_stepMeta_fst ls2 _ hls2]
    rw [stepMeta_title_match hl]
  · intro ls1 l ls2 hnt hl hls2
    unfold extractMeta
    rw [List.foldl_append, List.foldl_cons]
    rw [foldl_stepMeta_snd ls2 _ hls2]
    rw [stepMeta_meta_match hnt hl]
  · intro ls1 l ls2 hnt hnm hl hls2
    unfold extractMeta
    rw [List.foldl_append, List.foldl_cons]
    rw [foldl_stepMeta_kw ls2 _ hls2]
    rw [stepMeta_kw_match hnt hnm hl]
  · intro lines h
    unfold extractMeta
    have h1 := foldl_stepMeta_fst lines ([], [], []) (fun l hl => (h l hl).1)
    have h2 := foldl_stepMeta_snd lines ([], [], []) (fun l hl => (h l hl).2.1)
    have h3 := foldl_stepMeta_kw lines ([], [], []) (fun l hl => (h l hl).2.2)
    have hp := Prod.mk.eta (p := lines.foldl stepMeta ([], [], []))
    rw [← hp, h1]
    have hp2 := Prod.mk.eta (p := (lines.foldl stepMeta ([], [], [])).2)
    rw [← hp2, h2, h3]

/-- Witness for C3: the last-match conjunct applied at concrete lines. -/
theorem C3_amended_label_extraction_witness :
    (extractMeta ([("SEO_TITLE: A".toList)] ++ ("SEO_TITLE: B".toList) :: [])).1 =
      (pyStrip (pyReplace titleLabel [] (pyStrip ("SEO_TITLE: B".toList)))).take 60 :=
  C3_amended_label_extraction.1 [("SEO_TITLE: A".toList)] ("SEO_TITLE: B".toList) []
    (by decide) (by simp)

/-- C3 counterexample: with two SEO_TITLE lines the extracted title is the
second one ("B"), not the first ("A"), refuting "first match wins". -/
theorem C3_counterexample_first_match :
    parse_generated_content ("SEO_TITLE: A\nSEO_TITLE: B\n---\nX".toList) =
      some ⟨("B".toList), defaultMeta, defaultKw, ("X".toList)⟩ ∧
    ("B".toList) ≠ ("A".toList) := by decide

/-! ## Helpers for C6: a fully labelled completion text -/

lemma pyStrip_eq_self_of_ends {l : List Char}
    (hh : ∀ c, l.head? = some c → pyIsSpace c = false)
    (hl : ∀ c, l.getLast? = some c → pyIsSpace c = false) : pyStrip l = l := by
  unfold pyStrip
  rw [dropWhile_eq_self_of_head hh]
  exact rdropWhile_eq_self_of_last hl

lemma pyStrip_fix_head {t : List Char} (ht : pyStrip t = t) :
    ∀ c, t.head? = some c → pyIsSpace c = false := by
  intro c hc
  rw [← ht] at hc
  unfold pyStrip at hc
  have h2 := head?_of_pref (List.rdropWhile_prefix _ _) hc
  have h3 := List.head?_dropWhile_not pyIsSpace t
  rw [h2] at h3
  simpa using h3

lemma pyStrip_fix_last {t : List Char} (ht : pyStrip t = t) :
    ∀ c, t.getLast? = some c → pyIsSpace c = false := by
  intro c hc
  rw [← ht] at hc
  unfold pyStrip at hc
  exact getLast?_rdropWhile_not _ _ hc

lemma pyStrip_label_append {lab t : List Char} {c0 : Char}
    (hhead : (lab ++ t).head? = some c0) (hc0 : pyIsSpace c0 = false)
    (hne : t ≠ []) (hts : pyStrip t = t) :
    pyStrip (lab ++ t) = lab ++ t := by
  apply pyStrip_eq_self_of_ends
  · intro c hc
    rw [hhead] at hc
    cases hc
    exact hc0
  · intro c hc
    rw [List.getLast?_append, List.getLast?_eq_getLast t hne, Option.or_some] at hc
    exact pyStrip_fix_last hts c ((List.getLast?_eq_getLast t hne).trans hc)

lemma isPrefixOf_false_of_head_ne {a b : Char} {as bs : List Char} (h : a ≠ b) :
    (a :: as).isPrefixOf (b :: bs) = false := by
  rw [List.isPrefixOf_cons₂]
  have hab : (a == b) = false := beq_eq_false_iff_ne.mpr h
  rw [hab, Bool.false_and]

lemma prefix_append_sep {c : Char} {B : List Char} :
    ∀ (A : List Char) (pat : List Char), pat <+: (A ++ c :: B) → c ∉ pat → pat <+: A
  | _, [], _, _ => List.nil_prefix
  | [], p :: ps, h, hc => by
    exfalso
    rw [List.nil_append, List.cons_prefix_cons] at h
    exact hc (h.1 ▸ List.mem_cons_self p ps)
  | a :: A2, p :: ps, h, hc => by
    rw [List.cons_append, List.cons_prefix_cons] at h
    rw [List.cons_prefix_cons]
    exact ⟨h.1, prefix_append_sep A2 ps h.2 (fun hx => hc (List.mem_cons_of_mem p hx))⟩

lemma infix_append_sep {c : Char} {pat : List Char} :
    ∀ (A : List Char) {B : List Char}, pat <:+: (A ++ c :: B) → c ∉ pat →
      pat <:+: A ∨ pat <:+: B
  | [], B, h, hc => by
    rw [List.nil_append] at h
    rcases List.infix_cons_iff.mp h with h1 | h2
    · have h0 := prefix_append_sep [] pat (by simpa using h1) hc
      rw [List.prefix_nil] at h0
      subst h0
      exact Or.inl List.nil_infix
    · exact Or.inr h2
  | a :: A2, B, h, hc => by
    rw [List.cons_append] at h
    rcases List.infix_cons_iff.mp h with h1 | h2
    · exact Or.inl (prefix_append_sep (a :: A2) pat (by simpa using h1) hc).isInfix
    · rcases infix_append_sep A2 h2 hc with h3 | h3
      · exact Or.inl (List.infix_cons h3)
      · exact Or.inr h3

lemma dash3_not_infix_titleLine {t : List Char} (ht : ¬ ("---".toList) <:+: t) :
    ¬ ("---".toList) <:+: (titleLabel ++ t) := by
  rw [show titleLabel ++ t = "SEO_TITLE".toList ++ ':' :: t from rfl]
  intro h
  rcases infix_append_sep ("SEO_TITLE".toList) h (by decide) with h1 | h1
  · exact absurd h1 (by decide)
  · exact ht h1

lemma dash3_not_infix_metaLine {m : List Char} (hm : ¬ ("---".toList) <:+: m) :
    ¬ ("---".toList) <:+: (metaLabel ++ m) := by
  rw [show metaLabel ++ m = "META_DESCRIPTION".toList ++ ':' :: m from rfl]
  intro h
  rcases infix_append_sep ("META_DESCRIPTION".toList) h (by decide) with h1 | h1
  · exact absurd h1 (by decide)
  · exact hm h1

lemma dash3_not_infix_kwLine {k : List Char} (hk : ¬ ("---".toList) <:+: k) :
    ¬ ("---".toList) <:+: (kwLabel ++ k) := by
  rw [show kwLabel ++ k = "KEYWORDS".toList ++ ':' :: k from rfl]
  intro h
  rcases infix_append_sep ("KEYWORDS".toList) h (by decide) with h1 | h1
  · exact absurd h1 (by decide)
  · exact hk h1

lemma not_infix_crlf {s : List Char} (h : '\r' ∉ s) : ¬ ("\r\n".toList) <:+: s :=
  fun hinf => h (hinf.sublist.subset (by decide))

lemma splitLines_append :
    ∀ {a : List Char} (rest : List Char), '\n' ∉ a →
      splitLines (a ++ '\n' :: rest) = a :: splitLines rest
  | [], rest, _ => by
    simp only [List.nil_append]
    conv_lhs => unfold splitLines
    rw [if_pos rfl]
  | c :: a2, rest, h => by
    have hc : c ≠ '\n' := fun hx => h (hx ▸ List.mem_cons_self c a2)
    have h2 : '\n' ∉ a2 := fun hx => h (List.mem_cons_of_mem c hx)
    rw [List.cons_append]
    conv_lhs => unfold splitLines
    rw [if_neg hc, splitLines_append rest h2]

lemma c6front_chars {t m k : List Char} (P : Char → Prop)
    (hT : ∀ c ∈ titleLabel, P c) (hM : ∀ c ∈ metaLabel, P c) (hK : ∀ c ∈ kwLabel, P c)
    (hnl : P '\n') (ht : ∀ c ∈ t, P c) (hm : ∀ c ∈ m, P c) (hk : ∀ c ∈ k, P c) :
    ∀ c ∈ c6front t m k, P c := by
  intro c hc
  simp only [c6front, List.mem_append] at hc
  rcases hc with ((((((((h | h) | h) | h) | h) | h) | h) | h) | h)
  · exact hT c h
  · exact ht c h
  · obtain rfl : c = '\n' := by simpa using h
    exact hnl
  · exact hM c h
  · exact hm c h
  · obtain rfl : c = '\n' := by simpa using h
    exact hnl
  · exact hK c h
  · exact hk c h
  · obtain rfl : c = '\n' := by simpa using h
    exact hnl

lemma pgc_default_fields {raw front rest : List Char} {r : ArticleRecord}
    (hsp : splitOnFirst ("---".toList) (normRaw raw) = some (front, rest))
    (hr : parse_generated_content raw = some r) :
    ((∀ l ∈ splitLines front, titleLabel.isPrefixOf (pyStrip l) = false) →
      r.title = defaultTitle) ∧
    ((∀ l ∈ splitLines front, metaLabel.isPrefixOf (pyStrip l) = false) →
      r.meta_description = defaultMeta) ∧
    ((∀ l ∈ splitLines front, kwLabel.isPrefixOf (pyStrip l) = false) →
      r.keywords = defaultKw) := by
  unfold parse_generated_content at hr
  simp only [hsp] at hr
  obtain ⟨rt, rm, rk, rc⟩ := r
  injection hr with hrec
  injection hrec with h1 h2 h3 h4
  refine ⟨fun hno => ?_, fun hno => ?_, fun hno => ?_⟩
  · have he : (extractMeta (splitLines front)).1 = [] := foldl_stepMeta_fst _ _ hno
    rw [if_pos he] at h1
    exact h1.symm
  · have he : (extractMeta (splitLines front)).2.1 = [] := foldl_stepMeta_snd _ _ hno
    rw [if_pos he] at h2
    exact h2.symm
  · have he : (extractMeta (splitLines front)).2.2 = [] := foldl_stepMeta_kw _ _ hno
    rw [if_pos he] at h3
    exact h3.symm

lemma c6_all_labels (t m k : List Char)
    (ht0 : t ≠ []) (hts : pyStrip t = t) (htn : '\n' ∉ t) (htr : '\r' ∉ t)
    (htlab : ¬ titleLabel <:+: t) (htsep : ¬ ("---".toList) <:+: t)
    (hm0 : m ≠ []) (hms : pyStrip m = m) (hmn : '\n' ∉ m) (hmr : '\r' ∉ m)
    (hmlab : ¬ metaLabel <:+: m) (hmsep : ¬ ("---".toList) <:+: m)
    (hk0 : k ≠ []) (hks : pyStrip k = k) (hkn : '\n' ∉ k) (hkr : '\r' ∉ k)
    (hklab : ¬ kwLabel <:+: k) (hksep : ¬ ("---".toList) <:+: k) :
    parse_generated_content (c6raw t m k) =
      some ⟨t.take 60, m.take 160, k, c6body⟩ := by
  have hnocr : ¬ ("\r\n".toList) <:+: c6raw t m k := by
    apply not_infix_crlf
    intro hmem
    simp only [c6raw, List.mem_append] at hmem
    rcases hmem with (h | h) | h
    · exact c6front_chars (fun c => c ≠ '\r') (by decide) (by decide) (by decide)
        (by decide) (fun c hc he => htr (he ▸ hc)) (fun c hc he => hmr (he ▸ hc))
        (fun c hc he => hkr (he ▸ hc)) '\r' h rfl
    · exact absurd h (by decide)
    · exact absurd h (by decide)
  have hhead : (c6raw t m k).head? = some 'S' := rfl
  have hlastr : (c6raw t m k).getLast? = some '>' := by
    unfold c6raw
    rw [List.getLast?_append]
    rfl
  have hnorm : normRaw (c6raw t m k) = c6raw t m k := by
    unfold normRaw
    rw [pyReplace_eq_self hnocr]
    apply pyStrip_eq_self_of_ends
    · intro c hc
      rw [hhead] at hc
      cases hc
      decide
    · intro c hc
      rw [hlastr] at hc
      cases hc
      decide
  have hsh2 : c6front t m k ++ ("---".toList).dropLast =
      (titleLabel ++ t) ++ '\n' :: ((metaLabel ++ m) ++ '\n' ::
        ((kwLabel ++ k) ++ '\n' :: ('-' :: '-' :: []))) := by
    rw [show ("---".toList).dropLast = ('-' :: '-' :: []) from rfl]
    simp [c6front, List.append_assoc]
  have hA2 : ¬ ("---".toList) <:+: (c6front t m k ++ ("---".toList).dropLast) := by
    rw [hsh2]
    intro hinf
    rcases infix_append_sep (titleLabel ++ t) hinf (by decide) with h1 | hinf
    · exact dash3_not_infix_titleLine htsep h1
    rcases infix_append_sep (metaLabel ++ m) hinf (by decide) with h1 | hinf
    · exact dash3_not_infix_metaLine hmsep h1
    rcases infix_append_sep (kwLabel ++ k) hinf (by decide) with h1 | hinf
    · exact dash3_not_infix_kwLine hksep h1
    exact absurd hinf (by decide)
  have hsplit : splitOnFirst ("---".toList) (c6raw t m k) =
      some (c6front t m k, ("\n<p>Body</p>".toList)) := by
    unfold c6raw
    exact splitOnFirst_append (by decide) _ hA2
  have hshape : c6front t m k = (titleLabel ++ t) ++ '\n' ::
      ((metaLabel ++ m) ++ '\n' :: ((kwLabel ++ k) ++ '\n' :: [])) := by
    simp [c6front, List.append_assoc]
  have hlines : splitLines (c6front t m k) =
      [titleLabel ++ t, metaLabel ++ m, kwLabel ++ k, []] := by
    rw [hshape]
    rw [splitLines_append _ (by
      intro hmem
      rcases List.mem_append.mp hmem with h | h
      · exact absurd h (by decide)
      · exact htn h)]
    rw [splitLines_append _ (by
      intro hmem
      rcases List.mem_append.mp hmem with h | h
      · exact absurd h (by decide)
      · exact hmn h)]
    rw [splitLines_append _ (by
      intro hmem
      rcases List.mem_append.mp hmem with h | h
      · exact absurd h (by decide)
      · exact hkn h)]
    rfl
  have hl1s : pyStrip (titleLabel ++ t) = titleLabel ++ t :=
    pyStrip_label_append rfl (by decide) ht0 hts
  have hl2s : pyStrip (metaLabel ++ m) = metaLabel ++ m :=
    pyStrip_label_append rfl (by decide) hm0 hms
  have hl3s : pyStrip (kwLabel ++ k) = kwLabel ++ k :=
    pyStrip_label_append rfl (by decide) hk0 hks
  have hcond1 : titleLabel.isPrefixOf (pyStrip (titleLabel ++ t)) = true := by
    rw [hl1s]
    exact List.isPrefixOf_iff_prefix.mpr (List.prefix_append _ _)
  have hcond2 : metaLabel.isPrefixOf (pyStrip (metaLabel ++ m)) = true := by
    rw [hl2s]
    exact List.isPrefixOf_iff_prefix.mpr (List.prefix_append _ _)
  have hcond3 : kwLabel.isPrefixOf (pyStrip (kwLabel ++ k)) = true := by
    rw [hl3s]
    exact List.isPrefixOf_iff_prefix.mpr (List.prefix_append _ _)
  have hnt2 : titleLabel.isPrefixOf (pyStrip (metaLabel ++ m)) = false := by
    rw [hl2s]
    rw [show metaLabel ++ m = 'M' :: (("ETA_DESCRIPTION:".toList) ++ m) from rfl]
    rw [show titleLabel = 'S' :: ("EO_TITLE:".toList) from rfl]
    exact isPrefixOf_false_of_head_ne (by decide)
  have hnt3 : titleLabel.isPrefixOf (pyStrip (kwLabel ++ k)) = false := by
    rw [hl3s]
    rw [show kwLabel ++ k = 'K' :: (("EYWORDS:".toList) ++ k) from rfl]
    rw [show titleLabel = 'S' :: ("EO_TITLE:".toList) from rfl]
    exact isPrefixOf_false_of_head_ne (by decide)
  have hnm3 : metaLabel.isPrefixOf (pyStrip (kwLabel ++ k)) = false := by
    rw [hl3s]
    rw [show kwLabel ++ k = 'K' :: (("EYWORDS:".toList) ++ k) from rfl]
    rw [show metaLabel = 'M' :: ("ETA_DESCRIPTION:".toList) from rfl]
    exact isPrefixOf_false_of_head_ne (by decide)
  have hv1 : (pyStrip (pyReplace titleLabel [] (pyStrip (titleLabel ++ t)))).take 60 =
      t.take 60 := by
    rw [hl1s, pyReplace_append_head (by decide), pyReplace_eq_self htlab,
      List.nil_append, hts]
  have hv2 : (pyStrip (pyReplace metaLabel [] (pyStrip (metaLabel ++ m)))).take 160 =
      m.take 160 := by
    rw [hl2s, pyReplace_append_head (by decide), pyReplace_eq_self hmlab,
      List.nil_append, hms]
  have hv3 : pyStrip (pyReplace kwLabel [] (pyStrip (kwLabel ++ k))) = k := by
    rw [hl3s, pyReplace_append_head (by decide), pyReplace_eq_self hklab,
      List.nil_append, hks]
  have hfold : extractMeta [titleLabel ++ t, metaLabel ++ m, kwLabel ++ k, []] =
      (t.take 60, m.take 160, k) := by
    unfold extractMeta
    rw [List.foldl_cons, stepMeta_title_match hcond1]
    rw [List.foldl_cons, stepMeta_meta_match hnt2 hcond2]
    rw [List.foldl_cons, stepMeta_kw_match hnt3 hnm3 hcond3]
    rw [List.foldl_cons, stepMeta_no_match (by decide) (by decide) (by decide)]
    rw [List.foldl_nil]
    simp only [hv1, hv2, hv3]
  unfold parse_generated_content
  rw [hnorm]
  simp only [hsplit]
  rw [hlines, hfold]
  have h60 : t.take 60 ≠ [] := by
    intro hx
    rcases List.take_eq_nil_iff.mp hx with h | h
    · exact absurd h (by decide)
    · exact ht0 h
  have h160 : m.take 160 ≠ [] := by
    intro hx
    rcases List.take_eq_nil_iff.mp hx with h | h
    · exact absurd h (by decide)
    · exact hm0 h
  have hbody : pyStrip ("\n<p>Body</p>".toList) = c6body := by decide
  rw [hbody]
  simp [h60, h160, hk0, show c6body ≠ [] from by decide]

lemma c6_title_only (t : List Char)
    (ht0 : t ≠ []) (hts : pyStrip t = t) (htn : '\n' ∉ t) (htr : '\r' ∉ t)
    (htlab : ¬ titleLabel <:+: t) (htsep : ¬ ("---".toList) <:+: t) :
    parse_generated_content (c6rawT t) =
      some ⟨t.take 60, defaultMeta, defaultKw, c6body⟩ := by
  have hnocr : ¬ ("\r\n".toList) <:+: c6rawT t := by
    apply not_infix_crlf
    intro hmem
    simp only [c6rawT, c6frontT, List.mem_append] at hmem
    rcases hmem with (((h | h) | h) | h) | h
    · exact absurd h (by decide)
    · exact htr h
    · exact absurd h (by decide)
    · exact absurd h (by decide)
    · exact absurd h (by decide)
  have hhead : (c6rawT t).head? = some 'S' := rfl
  have hlastr : (c6rawT t).getLast? = some '>' := by
    unfold c6rawT
    rw [List.getLast?_append]
    rfl
  have hnorm : normRaw (c6rawT t) = c6rawT t := by
    unfold normRaw
    rw [pyReplace_eq_self hnocr]
    apply pyStrip_eq_self_of_ends
    · intro c hc
      rw [hhead] at hc
      cases hc
      decide
    · intro c hc
      rw [hlastr] at hc
      cases hc
      decide
  have hshT : c6frontT t ++ ("---".toList).dropLast =
      (titleLabel ++ t) ++ '\n' :: ('-' :: '-' :: []) := by
    rw [show ("---".toList).dropLast = ('-' :: '-' :: []) from rfl]
    simp [c6frontT, List.append_assoc]
  have hA2 : ¬ ("---".toList) <:+: (c6frontT t ++ ("---".toList).dropLast) := by
    rw [hshT]
    intro hinf
    rcases infix_append_sep (titleLabel ++ t) hinf (by decide) with h1 | hinf
    · exact dash3_not_infix_titleLine htsep h1
    exact absurd hinf (by decide)
  have hsplit : splitOnFirst ("---".toList) (c6rawT t) =
      some (c6frontT t, ("\n<p>Body</p>".toList)) := by
    unfold c6rawT
    exact splitOnFirst_append (by decide) _ hA2
  have hshapeT : c6frontT t = (titleLabel ++ t) ++ '\n' :: [] := by
    simp [c6frontT, List.append_assoc]
  have hlines : splitLines (c6frontT t) = [titleLabel ++ t, []] := by
    rw [hshapeT]
    rw [splitLines_append _ (by
      intro hmem
      rcases List.mem_append.mp hmem with h | h
      · exact absurd h (by decide)
      · exact htn h)]
    rfl
  have hl1s : pyStrip (titleLabel ++ t) = titleLabel ++ t :=
    pyStrip_label_append rfl (by decide) ht0 hts
  have hcond1 : titleLabel.isPrefixOf (pyStrip (titleLabel ++ t)) = true := by
    rw [hl1s]
    exact List.isPrefixOf_iff_prefix.mpr (List.prefix_append _ _)
  have hv1 : (pyStrip (pyReplace titleLabel [] (pyStrip (titleLabel ++ t)))).take 60 =
      t.take 60 := by
    rw [hl1s, pyReplace_append_head (by decide), pyReplace_eq_self htlab,
      List.nil_append, hts]
  have hfold : extractMeta [titleLabel ++ t, []] = (t.take 60, [], []) := by
    unfold extractMeta
    rw [List.foldl_cons, stepMeta_title_match hcond1]
    rw [List.foldl_cons, stepMeta_no_match (by decide) (by decide) (by decide)]
    rw [List.foldl_nil]
    simp only [hv1]
  unfold parse_generated_content
  rw [hnorm]
  simp only [hsplit]
  rw [hlines, hfold]
  have h60 : t.take 60 ≠ [] := by
    intro hx
    rcases List.take_eq_nil_iff.mp hx with h | h
    · exact absurd h (by decide)
    · exact ht0 h
  have hbody : pyStrip ("\n<p>Body</p>".toList) = c6body := by decide
  rw [hbody]
  simp [h60, show c6body ≠ [] from by decide]

/-! ## Claim theorem C6 (defaults and caps of parse_generated_content) -/

/-- C6 (amended): universally, whenever `parse_generated_content` succeeds
(the normalized text splits at a separator into front matter and body),
every label that matches no line of the front matter leaves its field at
the documented default.  A labelled line contributes
`line.replace(label, "").strip()` capped at 60 (title) / 160 (meta
description) and uncapped (keywords): shown for the all-labels completion
and for a title-only completion, for any stripped single-line values not
containing the separator `---` or their own label (the source's `replace`
deletes every occurrence of the label, so a value containing it is
altered — see the counterexample).  Values at or below the cap pass
through unmodified; longer values are cut to exactly the cap. -/
theorem C6_amended_defaults_caps :
    (∀ (raw front rest : List Char) (r : ArticleRecord),
      splitOnFirst ("---".toList) (normRaw raw) = some (front, rest) →
      parse_generated_content raw = some r →
      ((∀ l ∈ splitLines front, titleLabel.isPrefixOf (pyStrip l) = false) →
        r.title = defaultTitle) ∧
      ((∀ l ∈ splitLines front, metaLabel.isPrefixOf (pyStrip l) = false) →
        r.meta_description = defaultMeta) ∧
      ((∀ l ∈ splitLines front, kwLabel.isPrefixOf (pyStrip l) = false) →
        r.keywords = defaultKw)) ∧
    (∀ t m k : List Char,
      t ≠ [] → pyStrip t = t → '\n' ∉ t → '\r' ∉ t →
      ¬ titleLabel <:+: t → ¬ ("---".toList) <:+: t →
      m ≠ [] → pyStrip m = m → '\n' ∉ m → '\r' ∉ m →
      ¬ metaLabel <:+: m → ¬ ("---".toList) <:+: m →
      k ≠ [] → pyStrip k = k → '\n' ∉ k → '\r' ∉ k →
      ¬ kwLabel <:+: k → ¬ ("---".toList) <:+: k →
      parse_generated_content (c6raw t m k) =
        some ⟨t.take 60, m.take 160, k, c6body⟩) ∧
    (∀ t : List Char,
      t ≠ [] → pyStrip t = t → '\n' ∉ t → '\r' ∉ t →
      ¬ titleLabel <:+: t → ¬ ("---".toList) <:+: t →
      parse_generated_content (c6rawT t) =
        some ⟨t.take 60, defaultMeta, defaultKw, c6body⟩) ∧
    (∀ v : List Char, v.length ≤ 60 → v.take 60 = v) ∧
    (∀ v : List Char, 60 < v.length → (v.take 60).length = 60) ∧
    (∀ v : List Char, v.length ≤ 160 → v.take 160 = v) ∧
    (∀ v : List Char, 160 < v.length → (v.take 160).length = 160) ∧
    parse_generated_content ("no labels\n---\nX".toList) =
      some ⟨defaultTitle, defaultMeta, defaultKw, ("X".toList)⟩ := by
  refine ⟨fun raw front rest r hsp hr => pgc_default_fields hsp hr,
    c6_all_labels, c6_title_only,
    fun v h => List.take_of_length_le h, fun v h => ?_,
    fun v h => List.take_of_length_le h, fun v h => ?_, by decide⟩
  · rw [List.length_take]
    omega
  · rw [List.length_take]
    omega

/-- Witness for C6: the title-only conjunct applied at a concrete title
that contains a colon and a hyphen. -/
theorem C6_amended_defaults_caps_witness :
    parse_generated_content (c6rawT ("Zero Trust: A 2024-Guide".toList)) =
      some ⟨("Zero Trust: A 2024-Guide".toList).take 60, defaultMeta, defaultKw,
        c6body⟩ :=
  C6_amended_defaults_caps.2.2.1 ("Zero Trust: A 2024-Guide".toList)
    (by decide) (by decide) (by decide) (by decide) (by decide) (by decide)

/-- C6 counterexample: the claim says a labelled value within the cap is
passed through trimmed but otherwise unmodified; the source's
`line.replace(label, "")` deletes every occurrence of the label, so a
value that itself contains the label is altered: the title extracted
here is "A  B", not the trimmed value "A SEO_TITLE: B" (length 14,
well under the 60 cap). -/
theorem C6_counterexample_label_in_value :
    parse_generated_content ("SEO_TITLE: A SEO_TITLE: B\n---\nX".toList) =
      some ⟨("A  B".toList), defaultMeta, defaultKw, ("X".toList)⟩ ∧
    ("A  B".toList) ≠ ("A SEO_TITLE: B".toList) ∧
    ("A SEO_TITLE: B".toList).length ≤ 60 := by decide

/-! ## Reachability lemmas for the regex engine

These lemmas say that whatever the engine returns was produced by the
final continuation at some suffix of the searched text, and that the
greedy whitespace star preceding the capture group always hands the
capture a suffix beginning with a non-whitespace character when the
searched text has no trailing whitespace.  They justify that the `# `
heading fallback of `parse_md_draft` never produces a whitespace-only
title. -/

lemma tryGreedy_top {α : Type} {k : List Char → Option α} {u : List Char} {n : Nat} {x : α}
    (h : k (u.drop n) = some x) : tryGreedy k u n = some x := by
  cases n with
  | zero => simpa using h
  | succ n =>
    unfold tryGreedy
    rw [h]

lemma tryGreedy_reach {α : Type} {k : List Char → Option α} :
    ∀ {u : List Char} {n : Nat} {x : α}, tryGreedy k u n = some x →
      ∃ i, i ≤ n ∧ k (u.drop i) = some x
  | u, 0, x, h => ⟨0, le_refl 0, by simpa using h⟩
  | u, n + 1, x, h => by
    unfold tryGreedy at h
    cases hk : k (u.drop (n + 1)) with
    | some r =>
      rw [hk] at h
      have h2 : some r = some x := h
      exact ⟨n + 1, le_refl _, hk.trans h2⟩
    | none =>
      rw [hk] at h
      have h2 : tryGreedy k u n = some x := h
      obtain ⟨i, hi, hki⟩ := tryGreedy_reach h2
      exact ⟨i, by omega, hki⟩

lemma reRun_reach {α : Type} :
    ∀ (re : RE) {u : List Char} {k : List Char → Option α} {x : α},
      reRun re u k = some x → ∃ v, v <:+ u ∧ k v = some x
  | .lit l, u, k, x, h => by
    unfold reRun at h
    by_cases hc : ciStarts l u
    · rw [if_pos hc] at h
      exact ⟨u.drop l.length, List.drop_suffix _ _, h⟩
    · rw [if_neg hc] at h
      exact absurd h (by simp)
  | .cls p, u, k, x, h => by
    unfold reRun at h
    cases u with
    | nil => exact absurd h (by simp)
    | cons c cs =>
      have h2 : (if p c = true then k cs else none) = some x := h
      by_cases hc : p c
      · rw [if_pos hc] at h2
        exact ⟨cs, List.suffix_cons c cs, h2⟩
      · rw [if_neg hc] at h2
        exact absurd h2 (by simp)
  | .star p, u, k, x, h => by
    unfold reRun at h
    obtain ⟨i, _, hki⟩ := tryGreedy_reach h
    exact ⟨u.drop i, List.drop_suffix _ _, hki⟩
  | .seq a b, u, k, x, h => by
    unfold reRun at h
    obtain ⟨v1, hs1, h1⟩ := reRun_reach a h
    obtain ⟨v2, hs2, h2⟩ := reRun_reach b h1
    exact ⟨v2, hs2.trans hs1, h2⟩
  | .alt a b, u, k, x, h => by
    unfold reRun at h
    cases ha : reRun a u k with
    | some r =>
      rw [ha] at h
      obtain ⟨v, hs, hk⟩ := reRun_reach a ha
      exact ⟨v, hs, hk.trans h⟩
    | none =>
      rw [ha] at h
      exact reRun_reach b h

lemma drop_takeWhile_length (p : Char → Bool) :
    ∀ (u : List Char), u.drop (u.takeWhile p).length = u.dropWhile p
  | [] => rfl
  | c :: cs => by
    by_cases hc : p c
    · rw [List.takeWhile_cons, if_pos hc, List.dropWhile_cons, if_pos hc]
      simp only [List.length_cons, List.drop_succ_cons]
      exact drop_takeWhile_length p cs
    · rw [List.takeWhile_cons, if_neg hc, List.dropWhile_cons, if_neg hc]
      rfl

lemma star_capLine {s u : List Char} (hs : s.rdropWhile pyIsSpace = s) (hsuf : u <:+ s)
    {cap : List Char} (h : reRun (.star pyIsSpace) u capLine = some cap) :
    ∃ c0, cap.head? = some c0 ∧ pyIsSpace c0 = false := by
  by_cases hu : u = []
  · subst hu
    rw [show reRun (.star pyIsSpace) ([] : List Char) capLine = none from rfl] at h
    exact absurd h (by simp)
  · cases hR : u.dropWhile pyIsSpace with
    | nil =>
      exfalso
      have hall : ∀ c ∈ u, pyIsSpace c = true := List.dropWhile_eq_nil_iff.mp hR
      obtain ⟨w, rfl⟩ := hsuf
      have hlastu := List.getLast?_eq_getLast u hu
      have hg : (w ++ u).getLast? = some (u.getLast hu) := by
        rw [List.getLast?_append, hlastu, Option.or_some]
      have hsp := hall _ (List.getLast_mem hu)
      rw [List.rdropWhile_eq_self_iff] at hs
      have hne2 : w ++ u ≠ [] := by
        intro hx
        exact hu (List.append_eq_nil.mp hx).2
      have hnsp := hs hne2
      have hgl := List.getLast?_eq_getLast (w ++ u) hne2
      rw [hg] at hgl
      have heq := Option.some.inj hgl
      rw [← heq] at hnsp
      exact hnsp hsp
    | cons r0 R2 =>
      have hr0 : pyIsSpace r0 = false := by
        have h3 := List.head?_dropWhile_not pyIsSpace u
        rw [hR] at h3
        simpa using h3
      have hr0n : r0 ≠ '\n' := by
        intro hx
        rw [hx] at hr0
        exact absurd hr0 (by decide)
      have hdrop : u.drop (u.takeWhile pyIsSpace).length = r0 :: R2 := by
        rw [drop_takeWhile_length, hR]
      have htw : (r0 :: R2).takeWhile (fun c => c ≠ '\n') =
          r0 :: R2.takeWhile (fun c => c ≠ '\n') := by
        rw [List.takeWhile_cons, if_pos (by simpa using hr0n)]
      have hcap : capLine (r0 :: R2) =
          some (r0 :: (R2.takeWhile (fun c => c ≠ '\n'))) := by
        unfold capLine
        rw [htw]
        rw [if_neg (by simp)]
      have htop : reRun (.star pyIsSpace) u capLine =
          some (r0 :: (R2.takeWhile (fun c => c ≠ '\n'))) := by
        unfold reRun
        exact tryGreedy_top (by rw [hdrop]; exact hcap)
      rw [htop] at h
      have hcapeq := Option.some.inj h
      refine ⟨r0, ?_, hr0⟩
      rw [← hcapeq]
      rfl

lemma searchLSAux_reach {α : Type} {m : List Char → Option α} :
    ∀ {s : List Char} {x : α}, searchLSAux m s = some x → ∃ u, u <:+ s ∧ m u = some x
  | [], x, h => by
    exact absurd h (by simp [searchLSAux])
  | c :: cs, x, h => by
    unfold searchLSAux at h
    by_cases hc : c = '\n'
    · rw [if_pos hc] at h
      cases hm : m cs with
      | some r =>
        rw [hm] at h
        exact ⟨cs, List.suffix_cons c cs, hm.trans h⟩
      | none =>
        rw [hm] at h
        obtain ⟨u, hu, hmu⟩ := searchLSAux_reach h
        exact ⟨u, hu.trans (List.suffix_cons c cs), hmu⟩
    · rw [if_neg hc] at h
      obtain ⟨u, hu, hmu⟩ := searchLSAux_reach h
      exact ⟨u, hu.trans (List.suffix_cons c cs), hmu⟩

lemma searchLineStarts_reach {α : Type} {m : List Char → Option α} {s : List Char} {x : α}
    (h : searchLineStarts m s = some x) : ∃ u, u <:+ s ∧ m u = some x := by
  unfold searchLineStarts at h
  cases hm : m s with
  | some r =>
    rw [hm] at h
    exact ⟨s, List.suffix_refl s, hm.trans h⟩
  | none =>
    rw [hm] at h
    exact searchLSAux_reach h

lemma searchH1Md_good {body : List Char} (hb : body.rdropWhile pyIsSpace = body)
    {cap : List Char} (h : searchH1Md body = some cap) :
    ∃ c0, cap.head? = some c0 ∧ pyIsSpace c0 = false := by
  unfold searchH1Md at h
  obtain ⟨u, hu, hmu⟩ := searchLineStarts_reach h
  unfold h1RE at hmu
  obtain ⟨v, hv, hstar⟩ :=
    reRun_reach (.seq (.lit ("#".toList)) (.cls pyIsSpace)) hmu
  exact star_capLine hb (hv.trans hu) hstar

lemma rdropWhile_pyStrip (l : List Char) :
    (pyStrip l).rdropWhile pyIsSpace = pyStrip l := by
  apply rdropWhile_eq_self_of_last
  intro c hc
  unfold pyStrip at hc
  exact getLast?_rdropWhile_not _ _ hc

lemma take60_strip_ne {cap : List Char} {c0 : Char}
    (hh : cap.head? = some c0) (hs0 : pyIsSpace c0 = false) :
    (pyStrip cap).take 60 ≠ [] := by
  intro hx
  rcases List.take_eq_nil_iff.mp hx with h | h
  · exact absurd h (by decide)
  · unfold pyStrip at h
    rw [dropWhile_eq_self_of_head (fun c hc => by
      rw [hh] at hc
      cases hc
      exact hs0)] at h
    rw [List.rdropWhile_eq_nil_iff] at h
    have hc0 := h c0 (List.mem_of_mem_head? (by rw [hh]; rfl))
    rw [hs0] at hc0
    exact Bool.false_ne_true hc0

lemma h1_title_ne {body : List Char} (hb : body.rdropWhile pyIsSpace = body) :
    (match searchH1Md body with
     | some cap => (pyStrip cap).take 60
     | none => ("Blog Post".toList)) ≠ [] := by
  cases hh : searchH1Md body with
  | none =>
    simp only [hh]
    decide
  | some cap =>
    simp only [hh]
    obtain ⟨c0, hc0, hs0⟩ := searchH1Md_good hb hh
    exact take60_strip_ne hc0 hs0

lemma ifEmpty_ne_nil {x d : List Char} (hd : d ≠ []) : (if x = [] then d else x) ≠ [] := by
  by_cases h : x = []
  · rw [if_pos h]
    exact hd
  · rw [if_neg h]
    exact h

lemma joinCommaSpace_ne_nil :
    ∀ {l : List (List Char)}, l ≠ [] → (∀ x ∈ l, x ≠ []) → joinCommaSpace l ≠ []
  | [], h, _ => absurd rfl h
  | [x], _, hx => by
    unfold joinCommaSpace
    exact hx x (List.mem_singleton_self x)
  | x :: y :: ys, _, hx => by
    unfold joinCommaSpace
    intro hc
    rw [List.append_eq_nil] at hc
    rw [List.append_eq_nil] at hc
    exact hx x (List.mem_cons_self _ _) hc.1.1

/-! ## Claim theorem C1 (field population) -/

lemma pgc_fields {raw : List Char} {r : ArticleRecord}
    (hr : parse_generated_content raw = some r) :
    r.title ≠ [] ∧ r.meta_description ≠ [] ∧ r.keywords ≠ [] ∧ r.content ≠ [] := by
  unfold parse_generated_content at hr
  cases hsp : splitOnFirst ("---".toList) (normRaw raw) with
  | none =>
    rw [hsp] at hr
    exact absurd hr (by simp)
  | some fc =>
    rw [hsp] at hr
    obtain ⟨rt, rm, rk, rc⟩ := r
    have hrec := Option.some.inj hr
    injection hrec with h1 h2 h3 h4
    refine ⟨?_, ?_, ?_, ?_⟩
    · show rt ≠ []
      rw [← h1]
      exact ifEmpty_ne_nil (by decide)
    · show rm ≠ []
      rw [← h2]
      exact ifEmpty_ne_nil (by decide)
    · show rk ≠ []
      rw [← h3]
      exact ifEmpty_ne_nil (by decide)
    · show rc ≠ []
      rw [← h4]
      exact ifEmpty_ne_nil (by decide)

lemma pmd_fields {conv : List Char → List Char} {text : List Char} {r : ArticleRecord}
    (hr : parse_md_draft conv text = some r) :
    r.title ≠ [] ∧ r.meta_description ≠ [] ∧ r.keywords ≠ [] ∧
      ∃ b, r.content = conv b := by
  simp only [parse_md_draft] at hr
  cases hsp : splitOnFirst mdSep text with
  | none =>
    rw [hsp] at hr
    exact absurd hr (by simp)
  | some p =>
    rw [hsp] at hr
    obtain ⟨rt, rm, rk, rc⟩ := r
    have hrec := Option.some.inj hr
    injection hrec with h1 h2 h3 h4
    refine ⟨?_, ?_, ?_, ⟨pyStrip p.2, ?_⟩⟩
    · show rt ≠ []
      rw [← h1]
      by_cases hT : (match searchTitleMd (pyStrip p.1) with
        | some cap => (pyStrip cap).take 60
        | none => ([] : List Char)) = []
      · rw [if_pos hT]
        exact h1_title_ne (rdropWhile_pyStrip p.2)
      · rw [if_neg hT]
        exact hT
    · show rm ≠ []
      rw [← h2]
      exact ifEmpty_ne_nil (by decide)
    · show rk ≠ []
      rw [← h3]
      by_cases hK : ((((findallKw (pyStrip p.1)).take 5).map pyStrip).filter
          (fun k => k ≠ [])) = []
      · rw [if_pos hK]
        decide
      · rw [if_neg hK]
        apply joinCommaSpace_ne_nil hK
        intro x hx
        have := List.of_mem_filter hx
        simpa using this
    · show rc = conv (pyStrip p.2)
      rw [← h4]

/-- C1 (amended): parse_generated_content always returns four non-empty
fields (absent or empty values are masked by the fixed defaults); in
parse_md_draft this holds for the title, meta description and keywords,
but the content field is the Markdown converter's raw output, with no
default substituted — it is empty whenever the converter returns empty,
as it does for an empty body. -/
theorem C1_amended_field_population :
    (∀ (raw : List Char) (r : ArticleRecord), parse_generated_content raw = some r →
      r.title ≠ [] ∧ r.meta_description ≠ [] ∧ r.keywords ≠ [] ∧ r.content ≠ []) ∧
    (∀ (conv : List Char → List Char) (text : List Char) (r : ArticleRecord),
      parse_md_draft conv text = some r →
      r.title ≠ [] ∧ r.meta_description ≠ [] ∧ r.keywords ≠ []) ∧
    (∀ (conv : List Char → List Char) (text : List Char) (r : ArticleRecord),
      parse_md_draft conv text = some r → ∃ b, r.content = conv b) := by
  refine ⟨fun raw r hr => pgc_fields hr, fun conv text r hr => ?_, fun conv text r hr =>
    (pmd_fields hr).2.2.2⟩
  obtain ⟨a, b, c, _⟩ := pmd_fields hr
  exact ⟨a, b, c⟩

/-- Witness for C1: the amended theorem applied at concrete inputs. -/
theorem C1_amended_field_population_witness :
    (ArticleRecord.mk defaultTitle defaultMeta defaultKw ("B".toList)).title ≠ [] :=
  (C1_amended_field_population.1 ("T\n---\nB".toList)
    ⟨defaultTitle, defaultMeta, defaultKw, ("B".toList)⟩ (by decide)).1

/-- C1 counterexample: a Markdown draft with an empty body parses without
fatal error, yet its content field is the empty string — the absence of a
body is not masked by any default, refuting the claim for
parse_md_draft.  (The real `markdown` collaborator also returns the empty
string on empty input, modelled here by the identity converter.) -/
theorem C1_counterexample_empty_content :
    parse_md_draft (fun l => l) ("x\n---\n".toList) =
      some ⟨("Blog Post".toList), defaultMeta, defaultKw, []⟩ ∧
    (ArticleRecord.mk ("Blog Post".toList) defaultMeta defaultKw []).content = [] := by
  decide

/-! ## Sanity checks for the embedding -/

example :
    parse_md_draft (fun l => l)
        ("**SEO Title**\nMy Great Title\n\n1. alpha\n2. beta\n---\n# Heading\nBody text".toList) =
      some ⟨("My Great Title".toList), defaultMeta, ("alpha, beta".toList),
        ("# Heading\nBody text".toList)⟩ := by decide

example :
    parse_md_draft (fun l => l) ("x\n---\n# Head\nStuff".toList) =
      some ⟨("Head".toList), defaultMeta, defaultKw, ("# Head\nStuff".toList)⟩ := by decide

example :
    parse_md_draft (fun l => l) ("a\n---\nb\n---\nc".toList) =
      some ⟨("Blog Post".toList), defaultMeta, defaultKw, ("b\n---\nc".toList)⟩ := by decide

example : parse_md_draft (fun l => l) ("no separator".toList) = none := by decide

example :
    parse_md_draft (fun l => l) ("x\n---\n".toList) =
      some ⟨("Blog Post".toList), defaultMeta, defaultKw, []⟩ := by decide

example :
    slugify ("Zero Trust Architecture: A 2024 Guide!".toList) =
      ("zero-trust-architecture-a-2024-guide".toList) := by decide

example : slugify ("!!!".toList) = ("post".toList) := by decide

example : escape_html ("a<b&c".toList) = ("a&lt;b&amp;c".toList) := by decide

example :
    parse_generated_content ("SEO_TITLE: T\nMETA_DESCRIPTION: M\nKEYWORDS: a, b\n---\nBody".toList) =
      some ⟨("T".toList), ("M".toList), ("a, b".toList), ("Body".toList)⟩ := by decide

example : parse_generated_content ("no separator here".toList) = none := by decide
